import Mathlib

/-!
# TunnelCluster: the connection lifecycle of `lib/TunnelCluster.js`

`TunnelCluster.open()` creates one remote socket and registers listeners on
it; every further piece of behaviour happens inside a listener or a timer
callback.  The embedding below is a step function over an explicit state:

* the state holds what the closures of `open()` can observe (the options, the
  `remote.destroyed` flag, the listeners currently registered on the sockets,
  what listens to `error` on the cluster itself, the pending timers) and a
  chronological log of every externally visible effect (socket calls, file
  reads, `setTimeout`, `this.emit`);
* an `Event` is one thing the Node runtime can deliver: an event emitted by
  the remote socket or by one of the local sockets, a timer firing, or a
  change of the file system / of `remote.destroyed`;
* `step` dispatches the event to the listeners registered at that moment,
  each listener being a transcription of the closure in the source.

The runtime is left unconstrained: any event may arrive in any state, and an
event for which the program has no listener leaves the state unchanged.  An
exception that escapes a listener reaches the event loop uncaught and ends the
process.  Listeners of the cluster events other than `error` are taken to
return.

`lib/HeaderHostTransformer.js` is not among the sources; the transformer the
`connect` listener pipes through is modelled from sections 4.2 and 8 of the
specification.
-/

set_option autoImplicit false

namespace TunnelCluster

/-! ## Options and JavaScript conventions -/

/-- The `opts` object handed to the constructor.  String-valued options are
`none` when the property is absent (`undefined`); flags are recorded by their
truthiness. -/
structure Opts where
  remote_ip : Option String
  remote_host : Option String
  remote_port : Nat
  local_alias : Option String
  local_port : Nat
  local_https : Bool
  allow_invalid_cert : Bool
  local_cert : Option String
  local_key : Option String
  local_ca : Option String
deriving DecidableEq, Repr

/-- JavaScript truthiness of a string-or-undefined value: `undefined` and the
empty string are falsy. -/
def truthy : Option String → Bool
  | none => false
  | some v => v != ""

/-- The JavaScript expression `a || b` on string-or-undefined values. -/
def jsOr (a b : Option String) : Option String :=
  if truthy a then a else b

/-- Interpolation of a string-or-undefined value in a template literal. -/
def fmt : Option String → String
  | none => "undefined"
  | some v => v

/-- Line 23: `opt.remote_ip || opt.remote_host`. -/
def remoteHostOrIp (opt : Opts) : Option String :=
  jsOr opt.remote_ip opt.remote_host

/-- Line 25: `opt.local_alias || "localhost"`. -/
def localAlias (opt : Opts) : String :=
  fmt (jsOr opt.local_alias (some "localhost"))

/-- Lines 55-57: the message of the error emitted on a refused remote. -/
def refusedMessage (opt : Opts) : String :=
  "connection refused: " ++ fmt (remoteHostOrIp opt) ++ ":" ++
    toString opt.remote_port ++ " (check your firewall settings)"

/-! ## File system and local transport -/

/-- The files `fs.readFileSync` can see: path and contents. -/
abbrev FS := List (String × String)

/-- The call `fs.readFileSync(path)`: throws on an `undefined` path and on a
path that names no file. -/
def readFileSync (fs : FS) : Option String → Except String String
  | none => .error "ERR_INVALID_ARG_TYPE"
  | some p =>
    match fs.lookup p with
    | some d => .ok d
    | none => .error "ENOENT"

/-- The object returned by `getLocalCertOpts` (lines 83-90). -/
inductive CertOpts where
  | rejectUnauthorized (v : Bool)
  | material (cert key : String) (ca : Option (List String))
deriving DecidableEq, Repr

/-- The connection made to the local server (lines 93-99): `net.connect` with
host and port, or `tls.connect` with host, port and the spread certificate
options. -/
inductive Transport where
  | net (host : String) (port : Nat)
  | tls (host : String) (port : Nat) (cert : CertOpts)
deriving DecidableEq, Repr

/-- The endpoints a stream can be piped from or to: the remote socket, local
socket `i`, and the `HeaderHostTransformer` created in the `connect` listener
of local socket `i` with the given `host` option. -/
inductive Node where
  | remote
  | loc (i : Nat)
  | transformer (i : Nat) (host : String)
deriving DecidableEq, Repr

/-- The events `TunnelCluster` emits on itself. -/
inductive ClusterEvent where
  | opened
  | dead
  | error (msg : String)
  | request (method path : String)
deriving DecidableEq, Repr

/-- The externally visible effects of the program, in the order performed. -/
inductive Action where
  | netConnectRemote (host : Option String) (port : Nat)
  | setKeepAlive
  | emit (e : ClusterEvent)
  | remoteEnd
  | remotePause
  | remoteResume
  | readFile (path : Option String)
  | connectLocal (i : Nat) (t : Transport)
  | localEnd (i : Nat)
  | setTimeout (ms : Nat)
  | pipe (src dst : Node)
  | throw (msg : String)
deriving DecidableEq, Repr

/-- Lines 83-90, `getLocalCertOpts`: the file reads performed, in order, and
the options object or the exception of the first failing read. -/
def getLocalCertOpts (opt : Opts) (fs : FS) : List Action × Except String CertOpts :=
  if opt.allow_invalid_cert then ([], .ok (.rejectUnauthorized false))
  else
    match readFileSync fs opt.local_cert with
    | .error e => ([.readFile opt.local_cert], .error e)
    | .ok cert =>
      match readFileSync fs opt.local_key with
      | .error e => ([.readFile opt.local_cert, .readFile opt.local_key], .error e)
      | .ok key =>
        if truthy opt.local_ca then
          match readFileSync fs opt.local_ca with
          | .error e =>
            ([.readFile opt.local_cert, .readFile opt.local_key,
              .readFile opt.local_ca], .error e)
          | .ok ca =>
            ([.readFile opt.local_cert, .readFile opt.local_key,
              .readFile opt.local_ca], .ok (.material cert key (some [ca])))
        else
          ([.readFile opt.local_cert, .readFile opt.local_key],
            .ok (.material cert key none))

/-- Lines 93-99: the transport of the local connection together with the file
reads made while building its options. -/
def localTransport (opt : Opts) (fs : FS) : List Action × Except String Transport :=
  if opt.local_https then
    match getLocalCertOpts opt fs with
    | (reads, .ok c) => (reads, .ok (.tls (localAlias opt) opt.local_port c))
    | (reads, .error e) => (reads, .error e)
  else ([], .ok (.net (localAlias opt) opt.local_port))

/-! ## State -/

/-- What `this.emit("error", err)` meets on the cluster (an `EventEmitter`):
no `error` listener, in which case `emit` throws `err`; listeners that return;
or a listener that throws, as the handler of `bin/client.js` does. -/
inductive ErrorListener where
  | absent
  | returns
  | throws
deriving DecidableEq, Repr

/-- The listeners `connLocal` registers on one local socket. -/
structure LocalSock where
  errorArmed : Bool
  connectArmed : Bool
deriving DecidableEq, Repr

/-- What the closures of one `open()` call can observe. -/
structure State where
  opts : Opts
  fs : FS
  /-- every effect performed so far, oldest first -/
  log : List Action
  /-- the value of `remote.destroyed` -/
  destroyed : Bool
  /-- whether the last of `remote.pause()` / `remote.resume()` was a pause -/
  paused : Bool
  /-- whether the `remote.once("connect")` listener is still registered -/
  connectArmed : Bool
  /-- the `remoteClose` closures registered with `remote.once("close")`,
  each named by the local socket it closes over -/
  closeListeners : List Nat
  /-- the local sockets created so far; socket `i` is the `i`-th entry -/
  locals : List LocalSock
  /-- the number of pending `setTimeout(connLocal, 1000)` timers -/
  timers : Nat
  /-- an exception escaped a listener -/
  crashed : Bool
  /-- what listens to `error` on the cluster -/
  errorListener : ErrorListener
deriving DecidableEq, Repr

/-- What the runtime can deliver to the program: an event emitted by the
remote socket (`connect`, `error` with its code, `data` with the decoded text
of the chunk, `close`), the runtime setting `remote.destroyed`, an event
emitted by local socket `i` (`error`, `connect`, `close`), the oldest pending
timer firing, the files on disk changing, or the owner of the cluster changing
what listens to its `error` event. -/
inductive Event where
  | remoteConnect
  | remoteError (code : String)
  | remoteData (chunk : String)
  | remoteDestroyed
  | remoteClose
  | localError (i : Nat) (code : String)
  | localConnect (i : Nat)
  | localClose (i : Nat) (hadError : Bool)
  | timer
  | fsChange (fs : FS)
  | listenError (l : ErrorListener)
deriving DecidableEq, Repr

/-! ## The request-line pattern -/

/-- The class `\w` of a JavaScript pattern without the `u` flag. -/
def isWordChar (c : Char) : Bool :=
  ('a' ≤ c && c ≤ 'z') || ('A' ≤ c && c ≤ 'Z') || ('0' ≤ c && c ≤ '9') || c == '_'

/-- The class `\s` of a JavaScript pattern: the WhiteSpace and LineTerminator
code points of ECMAScript. -/
def isJsSpace (c : Char) : Bool :=
  let n := c.toNat
  n == 0x09 || n == 0x0A || n == 0x0B || n == 0x0C || n == 0x0D || n == 0x20 ||
  n == 0xA0 || n == 0x1680 || (0x2000 ≤ n && n ≤ 0x200A) || n == 0x2028 ||
  n == 0x2029 || n == 0x202F || n == 0x205F || n == 0x3000 || n == 0xFEFF

/-- The class `\S`. -/
def isNonSpace (c : Char) : Bool := !isJsSpace c

/-- One element of a pattern: a literal character, or a captured greedy
repetition `(C+)` of a character class. -/
inductive Item where
  | lit (c : Char)
  | plus (cls : Char → Bool)

/-- The backtracking of a greedy repetition: the continuation `k` is tried on
the lengths `n`, `n - 1`, ..., `1`, and the first success is the result. -/
def tryLengths {α : Type} (k : Nat → Option α) : Nat → Option α
  | 0 => none
  | n + 1 =>
    match k (n + 1) with
    | some r => some r
    | none => tryLengths k n

/-- Backtracking match of a sequence of pattern elements at the start of the
input, returning the captures.  A greedy `C+` first takes the longest run of
class members and gives characters back one at a time, down to one, until the
rest of the pattern matches. -/
def matchItems : List Item → List Char → Option (List (List Char))
  | [], _ => some []
  | .lit _ :: _, [] => none
  | .lit c :: rest, x :: xs => if x = c then matchItems rest xs else none
  | .plus cls :: rest, input =>
    tryLengths
      (fun n => (matchItems rest (input.drop n)).map (fun caps => input.take n :: caps))
      (input.takeWhile cls).length

/-- Line 151: `data.toString().match(/^(\w+) (\S+)/)`, returning the two
captures.  The chunk is given by its decoded text; the pattern has no `g` or
`m` flag, so `^` only matches at the start of the text. -/
def requestLine (chunk : String) : Option (String × String) :=
  match matchItems [.plus isWordChar, .lit ' ', .plus isNonSpace] chunk.toList with
  | some [m, p] => some (String.mk m, String.mk p)
  | _ => none

/-! ## Listeners -/

/-- An exception escapes the running listener: it reaches the event loop
uncaught and the process ends, so that no listener stays registered and no
timer stays pending. -/
def uncaught (s : State) (msg : String) : State :=
  { s with
    log := s.log ++ [.throw msg]
    crashed := true
    connectArmed := false
    closeListeners := []
    locals := s.locals.map (fun _ => { errorArmed := false, connectArmed := false })
    timers := 0 }

/-- Lines 47-62: the `remote.on("error")` listener.  When `this.emit("error")`
throws, because the cluster has no `error` listener or because the listener
throws, line 61 is not reached. -/
def remoteOnError (s : State) (code : String) : State :=
  if code = "ECONNREFUSED" then
    match s.errorListener with
    | .returns =>
      { s with log := s.log ++ [.emit (.error (refusedMessage s.opts)), .remoteEnd] }
    | _ =>
      uncaught { s with log := s.log ++ [.emit (.error (refusedMessage s.opts))] }
        (refusedMessage s.opts)
  else
    { s with log := s.log ++ [.remoteEnd] }

/-- Lines 64-107: `connLocal` up to the registration of its listeners.  The
new local socket gets the next free index; its `remoteClose` closure is added
to the close listeners of the remote socket.  An exception thrown by
`fs.readFileSync` escapes after `remote.pause()`. -/
def connLocal (s : State) : State :=
  if s.destroyed then
    { s with log := s.log ++ [.emit .dead] }
  else
    match localTransport s.opts s.fs with
    | (reads, .error e) =>
      uncaught { s with paused := true, log := s.log ++ (.remotePause :: reads) } e
    | (reads, .ok t) =>
      { s with
        paused := true
        log := s.log ++ (.remotePause :: (reads ++ [.connectLocal s.locals.length t]))
        closeListeners := s.closeListeners ++ [s.locals.length]
        locals := s.locals ++ [{ errorArmed := true, connectArmed := true }] }

/-- Lines 101-105: the `remoteClose` closure of local socket `i`. -/
def remoteClose (s : State) (i : Nat) : State :=
  { s with log := s.log ++ [.emit .dead, .localEnd i] }

/-- The remote socket emits `close`: every registered `remoteClose` runs, in
registration order, and is removed (each was added with `once`). -/
def emitClose (s : State) : State :=
  s.closeListeners.foldl remoteClose { s with closeListeners := [] }

/-- The `once("error")` listener of local socket `i` has run or is removed. -/
def disarmError (ls : List LocalSock) (i : Nat) : List LocalSock :=
  match ls[i]? with
  | some l => ls.set i { l with errorArmed := false }
  | none => ls

/-- The `once("connect")` listener of local socket `i` has run. -/
def disarmConnect (ls : List LocalSock) (i : Nat) : List LocalSock :=
  match ls[i]? with
  | some l => ls.set i { l with connectArmed := false }
  | none => ls

/-- Lines 112-124: the `local.once("error")` listener of local socket `i`. -/
def localOnError (s : State) (i : Nat) (code : String) : State :=
  if code ≠ "ECONNREFUSED" ∧ code ≠ "ECONNRESET" then
    { s with
      log := s.log ++ [.localEnd i, .remoteEnd]
      closeListeners := s.closeListeners.erase i
      locals := disarmError s.locals i }
  else
    { s with
      log := s.log ++ [.localEnd i, .setTimeout 1000]
      closeListeners := s.closeListeners.erase i
      locals := disarmError s.locals i
      timers := s.timers + 1 }

/-- Lines 126-147: the `local.once("connect")` listener of local socket `i`. -/
def localOnConnect (s : State) (i : Nat) : State :=
  if truthy s.opts.local_alias then
    { s with
      paused := false
      log := s.log ++ [.remoteResume,
        .pipe .remote (.transformer i (fmt s.opts.local_alias)),
        .pipe (.transformer i (fmt s.opts.local_alias)) (.loc i),
        .pipe (.loc i) .remote]
      locals := disarmConnect s.locals i }
  else
    { s with
      paused := false
      log := s.log ++ [.remoteResume, .pipe .remote (.loc i), .pipe (.loc i) .remote]
      locals := disarmConnect s.locals i }

/-- Lines 150-158: the `remote.on("data")` listener. -/
def remoteOnData (s : State) (chunk : String) : State :=
  match requestLine chunk with
  | some (method, path) => { s with log := s.log ++ [.emit (.request method path)] }
  | none => s

/-- Lines 161-164: the `remote.once("connect")` listener. -/
def remoteOnConnect (s : State) : State :=
  connLocal { s with connectArmed := false, log := s.log ++ [.emit .opened] }

/-- Whether the `once("error")` listener of local socket `i` is registered. -/
def errorArmed (s : State) (i : Nat) : Bool :=
  match s.locals[i]? with
  | some l => l.errorArmed
  | none => false

/-- Whether the `once("connect")` listener of local socket `i` is registered. -/
def connectArmedAt (s : State) (i : Nat) : Bool :=
  match s.locals[i]? with
  | some l => l.connectArmed
  | none => false

/-! ## The event loop -/

/-- Lines 19-45: `open()` up to the registration of the remote listeners, on a
cluster whose `error` event is listened to as `l` says. -/
def open_ (opt : Opts) (fs : FS) (l : ErrorListener) : State :=
  { opts := opt
    fs := fs
    log := [.netConnectRemote (remoteHostOrIp opt) opt.remote_port, .setKeepAlive]
    destroyed := false
    paused := false
    connectArmed := true
    closeListeners := []
    locals := []
    timers := 0
    crashed := false
    errorListener := l }

/-- Delivery of one event to the listeners registered for it.  A `once`
listener runs only while it is registered; `close` is emitted by a destroyed
socket, so `remote.destroyed` is set when its listeners run; after an uncaught
exception nothing runs any more. -/
def step (s : State) (e : Event) : State :=
  if s.crashed then s
  else
    match e with
    | .remoteConnect => if s.connectArmed then remoteOnConnect s else s
    | .remoteError code => remoteOnError s code
    | .remoteData chunk => remoteOnData s chunk
    | .remoteDestroyed => { s with destroyed := true }
    | .remoteClose => emitClose { s with destroyed := true }
    | .localError i code => if errorArmed s i then localOnError s i code else s
    | .localConnect i => if connectArmedAt s i then localOnConnect s i else s
    | .localClose _ _ => s
    | .timer => if s.timers = 0 then s else connLocal { s with timers := s.timers - 1 }
    | .fsChange fs => { s with fs := fs }
    | .listenError l => { s with errorListener := l }

/-- Delivery of a sequence of events. -/
def run (s : State) (tr : List Event) : State :=
  tr.foldl step s

/-- The number of `dead` events in a log. -/
def deadCount (log : List Action) : Nat :=
  log.count (.emit .dead)

/-! ## The request line as the specification words it -/

/-- The request line as the specification words it: the text begins with one
or more word characters, the maximal such run being the method; exactly one
space follows; then comes at least one non-whitespace character, the maximal
run of them being the path. -/
def leadingRequestLine (text : List Char) : Option (List Char × List Char) :=
  match text.dropWhile isWordChar with
  | [] => none
  | x :: rest =>
    if x = ' ' ∧ text.takeWhile isWordChar ≠ [] ∧ rest.takeWhile isNonSpace ≠ [] then
      some (text.takeWhile isWordChar, rest.takeWhile isNonSpace)
    else none

/-! ## Observations and invariants used in the statements -/

/-- The host a local transport connects to. -/
def Transport.host : Transport → String
  | .net h _ => h
  | .tls h _ _ => h

/-- Whether an action opens a socket to the remote relay. -/
def Action.isRemoteConnect : Action → Bool
  | .netConnectRemote _ _ => true
  | _ => false

/-- Whether the `once("error")` listener of entry `i` of a list of local
sockets is registered. -/
def armedAt (ls : List LocalSock) (i : Nat) : Bool :=
  match ls[i]? with
  | some l => l.errorArmed
  | none => false

/-- The state of a connection whose remote socket has not connected: nothing
that `connLocal` or a local socket does has happened. -/
def PreConnect (s : State) : Prop :=
  s.locals = [] ∧ s.timers = 0 ∧ s.closeListeners = [] ∧
  (∀ i t, Action.connectLocal i t ∉ s.log) ∧ (∀ ms, Action.setTimeout ms ∉ s.log)

/-- No local socket has its `error` listener registered. -/
def NoneArmed (s : State) : Prop := ∀ j, errorArmed s j = false

/-- No local socket is attached: no `error` listener and no `remoteClose`
listener is registered, and at most one thing can still call `connLocal`. -/
def Idle (s : State) : Prop :=
  NoneArmed s ∧ s.closeListeners = [] ∧ s.timers ≤ 1 ∧
  (s.connectArmed = true → s.timers = 0)

/-- Local socket `i` is the one attached: it alone has its `error` listener
registered, its `remoteClose` is the only `close` listener, and nothing is
pending that would call `connLocal`. -/
def Busy (s : State) (i : Nat) : Prop :=
  s.crashed = false ∧ s.connectArmed = false ∧ s.timers = 0 ∧
  (∀ j, errorArmed s j = true ↔ j = i) ∧ s.closeListeners = [i]

/-- The invariant of a connection whose remote socket has not closed. -/
def Paired (s : State) : Prop := Idle s ∨ ∃ i, Busy s i

/-- Nothing is registered or pending that could emit `dead`: the remote
`connect` listener has run, no timer is pending, no `remoteClose` listener and
no local `error` listener is registered. -/
def Quiet (s : State) : Prop :=
  s.connectArmed = false ∧ s.timers = 0 ∧ s.closeListeners = [] ∧ NoneArmed s

/-! ## The Host header transformer -/

/-- Modelled from the spec: whether a header line names `Host`, in any letter
case (section 4.2). -/
def isHostHeader (line : List Char) : Bool :=
  (line.take 5).map Char.toLower == ['h', 'o', 's', 't', ':']

/-- Modelled from the spec: a `Host` line keeps its name, colon and the blanks
after it and gets the configured host as its value; any other line is
unchanged (section 4.2). -/
def rewriteLine (host line : List Char) : List Char :=
  if isHostHeader line then
    line.take 5 ++ (line.drop 5).takeWhile (fun c => c == ' ') ++ host
  else line

/-- Modelled from the spec: the header section of `HeaderHostTransformer`, fed
the characters of a chunk with the partial line buffered so far.  The result
is the output, the partial line left in the buffer, and whether the empty line
that ends the header block was passed, after which the rest of the chunk is
output untouched (section 4.2). -/
def feed (host : List Char) : List Char → List Char → List Char × List Char × Bool
  | line, [] => ([], line, false)
  | line, c :: cs =>
    if c = '\n' ∧ line.getLast? = some '\r' then
      if line.dropLast = [] then ('\r' :: '\n' :: cs, [], true)
      else
        (rewriteLine host line.dropLast ++ '\r' :: '\n' :: (feed host [] cs).1,
          (feed host [] cs).2.1, (feed host [] cs).2.2)
    else feed host (line ++ [c]) cs

/-- Modelled from the spec: `HeaderHostTransformer`
(`lib/HeaderHostTransformer.js` is not under `src/`), a transform stream
constructed with a host, holding the partial line buffered across chunks and
whether the header block is complete (section 4.2). -/
structure HeaderHostTransformer where
  host : List Char
  buffer : List Char
  done : Bool

/-- Modelled from the spec: one chunk written to the transformer; the new
state and the bytes it outputs. -/
def HeaderHostTransformer.write (t : HeaderHostTransformer) (chunk : List Char) :
    HeaderHostTransformer × List Char :=
  if t.done then (t, chunk)
  else
    ({ host := t.host
       buffer := (feed t.host t.buffer chunk).2.1
       done := (feed t.host t.buffer chunk).2.2 },
      (feed t.host t.buffer chunk).1)

/-- Modelled from the spec: the bytes output for a sequence of chunks. -/
def HeaderHostTransformer.writeAll (t : HeaderHostTransformer) : List (List Char) → List Char
  | [] => []
  | c :: cs => (t.write c).2 ++ HeaderHostTransformer.writeAll (t.write c).1 cs

/-- Modelled from the spec: the output of `new HeaderHostTransformer({ host })`
for the chunks piped into it. -/
def hostTransform (host : String) (chunks : List String) : List Char :=
  HeaderHostTransformer.writeAll { host := host.toList, buffer := [], done := false }
    (chunks.map String.toList)

/-- The lines of a header block, each followed by CRLF. -/
def joinLines (ls : List (List Char)) : List Char :=
  (ls.map (fun l => l ++ ['\r', '\n'])).flatten

/-- A non-empty line without a line feed that is not a `Host` header. -/
def PlainLine (l : List Char) : Prop :=
  l ≠ [] ∧ '\n' ∉ l ∧ isHostHeader l = false

/-- The header block and body of an HTTP message: the lines `pre`, a `Host`
line with name `name`, blanks `sp` and value `v`, the lines `post`, the empty
line and the body. -/
def httpMessage (pre : List (List Char)) (name sp v : List Char) (post : List (List Char))
    (body : List Char) : List Char :=
  joinLines pre ++ (name ++ (sp ++ v) ++ '\r' :: '\n' :: (joinLines post ++ '\r' :: '\n' :: body))

/-! ## Data flow along the pipes -/

/-- How the bytes one end emits reach the other end: piped directly, or
through a `HeaderHostTransformer` constructed with `host`. -/
inductive Leg where
  | direct
  | rewritten (host : String)
deriving DecidableEq, Repr

/-- The leg a pipe of the log contributes from the remote socket to local
socket `i`: a direct pipe, or a pipe out of a transformer that the remote
socket is piped into. -/
def legToLocal (log : List Action) (i : Nat) : Action → Option Leg
  | .pipe .remote (.loc j) => if j = i then some .direct else none
  | .pipe (.transformer k a) (.loc j) =>
    if j = i ∧ Action.pipe .remote (.transformer k a) ∈ log then some (.rewritten a) else none
  | _ => none

/-- The leg a pipe of the log contributes from local socket `i` to the remote
socket: a direct pipe, or a pipe into a transformer that is piped into the
remote socket. -/
def legToRemote (log : List Action) (i : Nat) : Action → Option Leg
  | .pipe (.loc j) .remote => if j = i then some .direct else none
  | .pipe (.loc j) (.transformer k a) =>
    if j = i ∧ Action.pipe (.transformer k a) .remote ∈ log then some (.rewritten a) else none
  | _ => none

/-- The bytes a leg delivers for the chunks written into it. -/
def Leg.carry : Leg → List String → List Char
  | .direct, chunks => (chunks.map String.toList).flatten
  | .rewritten host, chunks => hostTransform host chunks

/-- The byte streams local socket `i` receives, one for each leg, when the
remote socket emits `chunks` after the pipes of the log were made. -/
def receivedByLocal (log : List Action) (i : Nat) (chunks : List String) : List (List Char) :=
  (log.filterMap (legToLocal log i)).map (fun g => g.carry chunks)

/-- The byte streams the remote socket receives from local socket `i`, one for
each leg, when that socket emits `chunks` after the pipes of the log were
made. -/
def receivedByRemote (log : List Action) (i : Nat) (chunks : List String) : List (List Char) :=
  (log.filterMap (legToRemote log i)).map (fun g => g.carry chunks)

/-- Every pipe into or out of a local socket was made by the `connect`
listener of that socket, which has run. -/
def PipesSettled (s : State) : Prop :=
  ∀ x y, Action.pipe x y ∈ s.log → ∀ j, (x = .loc j ∨ y = .loc j) →
    j < s.locals.length ∧ connectArmedAt s j = false

/-! ## Sample inputs -/

/-- Sample options: a relay host, a plain local server on port 8080. -/
def sampleOpts : Opts :=
  { remote_ip := none
    remote_host := some "relay.example"
    remote_port := 4000
    local_alias := none
    local_port := 8080
    local_https := false
    allow_invalid_cert := false
    local_cert := none
    local_key := none
    local_ca := none }

/-- Sample options with an explicit alias for the local server. -/
def aliasOpts : Opts := { sampleOpts with local_alias := some "127.0.0.1" }

/-- Sample options for a local HTTPS server with certificate files. -/
def tlsOpts : Opts :=
  { sampleOpts with
    local_https := true
    local_cert := some "cert.pem"
    local_key := some "key.pem" }

/-- A file system holding the two certificate files of `tlsOpts`. -/
def tlsFiles : FS := [("cert.pem", "CERT"), ("key.pem", "KEY")]

/-- Sample options in which the assignment gave both an IP and a host. -/
def ipOpts : Opts := { sampleOpts with remote_ip := some "203.0.113.7" }

/-- Sample options for a local HTTPS server with certificate files, reached
under an explicit alias. -/
def tlsAliasOpts : Opts := { tlsOpts with local_alias := some "127.0.0.1" }

/-- Sample options for a local HTTPS server without any certificate option. -/
def tlsBareOpts : Opts := { sampleOpts with local_https := true }

/-! ## Basic facts about `run` -/

theorem run_nil (s : State) : run s [] = s := rfl

theorem run_cons (s : State) (e : Event) (tr : List Event) :
    run s (e :: tr) = run (step s e) tr := rfl

theorem run_append (s : State) (tr₁ tr₂ : List Event) :
    run s (tr₁ ++ tr₂) = run (run s tr₁) tr₂ := by
  simp [run, List.foldl_append]

theorem step_crashed (s : State) (e : Event) (h : s.crashed = true) : step s e = s := by
  simp [step, h]

theorem step_remoteConnect (s : State) (h : s.crashed = false) :
    step s .remoteConnect = if s.connectArmed then remoteOnConnect s else s := by
  simp [step, h]

theorem step_remoteError (s : State) (code : String) (h : s.crashed = false) :
    step s (.remoteError code) = remoteOnError s code := by
  simp [step, h]

theorem step_remoteData (s : State) (chunk : String) (h : s.crashed = false) :
    step s (.remoteData chunk) = remoteOnData s chunk := by
  simp [step, h]

theorem step_remoteDestroyed (s : State) (h : s.crashed = false) :
    step s .remoteDestroyed = { s with destroyed := true } := by
  simp [step, h]

theorem step_remoteClose (s : State) (h : s.crashed = false) :
    step s .remoteClose = emitClose { s with destroyed := true } := by
  simp [step, h]

theorem step_localError (s : State) (i : Nat) (code : String) (h : s.crashed = false) :
    step s (.localError i code) = if errorArmed s i then localOnError s i code else s := by
  simp [step, h]

theorem step_localConnect (s : State) (i : Nat) (h : s.crashed = false) :
    step s (.localConnect i) = if connectArmedAt s i then localOnConnect s i else s := by
  simp [step, h]

theorem step_localClose (s : State) (i : Nat) (b : Bool) : step s (.localClose i b) = s := by
  simp [step]

theorem step_timer (s : State) (h : s.crashed = false) :
    step s .timer = if s.timers = 0 then s else connLocal { s with timers := s.timers - 1 } := by
  simp [step, h]

theorem step_fsChange (s : State) (fs : FS) (h : s.crashed = false) :
    step s (.fsChange fs) = { s with fs := fs } := by
  simp [step, h]

theorem remoteOnData_fields (s : State) (chunk : String) :
    (remoteOnData s chunk).paused = s.paused ∧ (remoteOnData s chunk).locals = s.locals ∧
    (remoteOnData s chunk).timers = s.timers ∧
    (remoteOnData s chunk).connectArmed = s.connectArmed ∧
    (remoteOnData s chunk).crashed = s.crashed ∧
    (remoteOnData s chunk).closeListeners = s.closeListeners ∧
    (remoteOnData s chunk).destroyed = s.destroyed := by
  unfold remoteOnData
  split <;> simp

theorem step_listenError (s : State) (l : ErrorListener) (h : s.crashed = false) :
    step s (.listenError l) = { s with errorListener := l } := by
  simp [step, h]

theorem remoteOnError_cases (s : State) (code : String) :
    (∃ as : List Action, remoteOnError s code = { s with log := s.log ++ as } ∧
      ∀ a ∈ as, a = .remoteEnd ∨ ∃ m, a = .emit (.error m)) ∨
    (∃ m, remoteOnError s code =
      uncaught { s with log := s.log ++ [.emit (.error m)] } m) := by
  unfold remoteOnError
  split
  · split
    · left; exact ⟨_, rfl, by simp⟩
    · right; exact ⟨_, rfl⟩
  · left; exact ⟨_, rfl, by simp⟩

theorem armedAt_uncaught (ls : List LocalSock) (j : Nat) :
    (match (ls.map (fun _ => ({ errorArmed := false, connectArmed := false } : LocalSock)))[j]?
      with
      | some l => l.errorArmed
      | none => false) = false := by
  rw [List.getElem?_map]
  cases ls[j]? <;> rfl

theorem errorArmed_uncaught (s : State) (m : String) (j : Nat) :
    errorArmed (uncaught s m) j = false :=
  armedAt_uncaught s.locals j

/-! ## Local connect errors (lines 112-124) -/

theorem getLocalCertOpts_reads (opt : Opts) (fs : FS) :
    ∀ b ∈ (getLocalCertOpts opt fs).1, b.isRemoteConnect = false := by
  unfold getLocalCertOpts
  repeat' split
  all_goals simp [Action.isRemoteConnect]

theorem localTransport_reads (opt : Opts) (fs : FS) :
    ∀ b ∈ (localTransport opt fs).1, b.isRemoteConnect = false := by
  have h := getLocalCertOpts_reads opt fs
  unfold localTransport
  split
  · split
    · rename_i heq; rw [heq] at h; exact h
    · rename_i heq; rw [heq] at h; exact h
  · simp

theorem connLocal_remoteSockets (s : State) (a : Action)
    (ha : a ∈ (connLocal s).log) (hr : a.isRemoteConnect = true) : a ∈ s.log := by
  have hreads := localTransport_reads s.opts s.fs
  unfold connLocal at ha
  split at ha
  · simp at ha
    rcases ha with h | h
    · exact h
    · subst h; simp [Action.isRemoteConnect] at hr
  · split at ha
    all_goals rename_i heq
    all_goals rw [heq] at hreads
    all_goals simp [uncaught] at ha
    all_goals
      rcases ha with h | h | h | h
      · exact h
      · subst h; simp [Action.isRemoteConnect] at hr
      · have := hreads a h
        rw [hr] at this; cases this
      · subst h; simp [Action.isRemoteConnect] at hr

/-- C1: when the `error` listener of local socket `i` is registered and an
error with code `code` is delivered to that socket, the socket is ended first;
for `ECONNREFUSED` and `ECONNRESET` exactly one `setTimeout(connLocal, 1000)`
follows, the remote socket is not ended, and the retry that timer runs opens
no new remote socket; for every other code the remote socket is ended and no
timer is scheduled. -/
theorem local_error_classification (s : State) (i : Nat) (code : String)
    (hc : s.crashed = false) (ha : errorArmed s i = true) :
    (code = "ECONNREFUSED" ∨ code = "ECONNRESET" →
      (step s (.localError i code)).log = s.log ++ [.localEnd i, .setTimeout 1000] ∧
      (step s (.localError i code)).timers = s.timers + 1 ∧
      (∀ a ∈ (step (step s (.localError i code)) .timer).log,
        a.isRemoteConnect = true → a ∈ s.log)) ∧
    (¬ (code = "ECONNREFUSED" ∨ code = "ECONNRESET") →
      (step s (.localError i code)).log = s.log ++ [.localEnd i, .remoteEnd] ∧
      (step s (.localError i code)).timers = s.timers) := by
  have hstep : step s (.localError i code) = localOnError s i code := by
    simp [step, hc, ha]
  rw [hstep]
  constructor
  · intro hcode
    have hbranch : ¬ (code ≠ "ECONNREFUSED" ∧ code ≠ "ECONNRESET") := by
      rcases hcode with h | h <;> simp [h]
    refine ⟨by simp [localOnError, hbranch], by simp [localOnError, hbranch], ?_⟩
    intro a hmem hrem
    have hcr : (localOnError s i code).crashed = false := by
      simp [localOnError, hbranch, hc]
    have htm : (localOnError s i code).timers ≠ 0 := by
      simp [localOnError, hbranch]
    have hlog : (localOnError s i code).log = s.log ++ [.localEnd i, .setTimeout 1000] := by
      simp [localOnError, hbranch]
    simp only [step, hcr, htm] at hmem
    have h1 := connLocal_remoteSockets _ a (by simpa using hmem) hrem
    simp only [hlog] at h1
    simp at h1
    rcases h1 with h | h | h
    · exact h
    · subst h; simp [Action.isRemoteConnect] at hrem
    · subst h; simp [Action.isRemoteConnect] at hrem
  · intro hcode
    have hbranch : code ≠ "ECONNREFUSED" ∧ code ≠ "ECONNRESET" := by
      constructor
      · intro h; exact hcode (Or.inl h)
      · intro h; exact hcode (Or.inr h)
    simp [localOnError, hbranch]

/-- C1 at concrete inputs: a refused local connect after the remote connected,
and a fatal one. -/
theorem local_error_classification_witness :
    (step (run (open_ sampleOpts [] .returns) [.remoteConnect]) (.localError 0 "ECONNREFUSED")).log =
        (run (open_ sampleOpts [] .returns) [.remoteConnect]).log ++ [.localEnd 0, .setTimeout 1000] ∧
    (step (run (open_ sampleOpts [] .returns) [.remoteConnect]) (.localError 0 "EACCES")).log =
        (run (open_ sampleOpts [] .returns) [.remoteConnect]).log ++ [.localEnd 0, .remoteEnd] :=
  ⟨((local_error_classification (run (open_ sampleOpts [] .returns) [.remoteConnect]) 0
      "ECONNREFUSED" (by decide) (by decide)).1 (Or.inl rfl)).1,
   ((local_error_classification (run (open_ sampleOpts [] .returns) [.remoteConnect]) 0
      "EACCES" (by decide) (by decide)).2 (by decide)).1⟩

/-! ## Remote errors (lines 47-62) -/

/-- C3, as the code has it: an `error` event with code `ECONNREFUSED` on the
remote socket emits exactly one cluster `error`, whose message names
`remote_ip` when that option is truthy and `remote_host` otherwise, followed
by the port; when that `emit` returns the remote socket is then ended, and
when it throws (no `error` listener on the cluster, or a listener that throws)
the exception escapes and `remote.end()` is not reached.  For any other code
no `error` is emitted and the remote socket is ended.  In no case is a timer
scheduled or a socket created, and unless the `emit` throws no listener
changes. -/
theorem remote_error_handling (s : State) (code : String) (hc : s.crashed = false) :
    (∃ host : String,
      (∀ ip, s.opts.remote_ip = some ip → ip ≠ "" → host = ip) ∧
      (truthy s.opts.remote_ip = false → host = fmt s.opts.remote_host) ∧
      (code = "ECONNREFUSED" → s.errorListener = .returns →
        (step s (.remoteError code)).log = s.log ++
          [.emit (.error ("connection refused: " ++ host ++ ":" ++
              toString s.opts.remote_port ++ " (check your firewall settings)")),
            .remoteEnd]) ∧
      (code = "ECONNREFUSED" → s.errorListener ≠ .returns →
        (step s (.remoteError code)).log = s.log ++
          [.emit (.error ("connection refused: " ++ host ++ ":" ++
              toString s.opts.remote_port ++ " (check your firewall settings)")),
            .throw ("connection refused: " ++ host ++ ":" ++
              toString s.opts.remote_port ++ " (check your firewall settings)")] ∧
        (step s (.remoteError code)).crashed = true)) ∧
    (code ≠ "ECONNREFUSED" → (step s (.remoteError code)).log = s.log ++ [.remoteEnd]) ∧
    (step s (.remoteError code)).timers ≤ s.timers ∧
    (step s (.remoteError code)).locals.length = s.locals.length ∧
    (code ≠ "ECONNREFUSED" ∨ s.errorListener = .returns →
      (step s (.remoteError code)).timers = s.timers ∧
      (step s (.remoteError code)).locals = s.locals ∧
      (step s (.remoteError code)).closeListeners = s.closeListeners ∧
      (step s (.remoteError code)).connectArmed = s.connectArmed) := by
  have hstep : step s (.remoteError code) = remoteOnError s code := by
    simp [step, hc]
  rw [hstep]
  refine ⟨⟨fmt (remoteHostOrIp s.opts), ?_, ?_, ?_, ?_⟩, ?_, ?_, ?_, ?_⟩
  · intro ip hip hne
    simp [remoteHostOrIp, jsOr, truthy, hip, hne, fmt]
  · intro hf
    simp [remoteHostOrIp, jsOr, hf]
  · intro hcode hl
    simp [remoteOnError, hcode, hl, refusedMessage]
  · intro hcode hl
    unfold remoteOnError
    rw [if_pos hcode]
    cases hls : s.errorListener with
    | returns => exact absurd hls hl
    | absent => simp [uncaught, refusedMessage]
    | throws => simp [uncaught, refusedMessage]
  · intro hcode
    simp [remoteOnError, hcode]
  · unfold remoteOnError
    split
    · split <;> simp [uncaught]
    · simp
  · unfold remoteOnError
    split
    · split <;> simp [uncaught]
    · simp
  · intro h
    unfold remoteOnError
    split
    · rename_i hcode
      rcases h with h | h
      · exact absurd hcode h
      · simp [h]
    · simp

/-- C3 at a concrete input: the remote is refused before it connects, on a
cluster whose `error` listener returns; the message names the IP. -/
theorem remote_error_handling_witness :
    (step (open_ ipOpts [] .returns) (.remoteError "ECONNREFUSED")).log =
      [.netConnectRemote (some "203.0.113.7") 4000, .setKeepAlive,
        .emit (.error "connection refused: 203.0.113.7:4000 (check your firewall settings)"),
        .remoteEnd] := by
  obtain ⟨host, hip, _, hlog, _⟩ :=
    (remote_error_handling (open_ ipOpts [] .returns) "ECONNREFUSED" (by decide)).1
  have hhost : host = "203.0.113.7" := hip "203.0.113.7" rfl (by decide)
  rw [hlog rfl rfl, hhost]
  decide

/-- C3 as stated fails: on a cluster with no `error` listener, the state
right after `open()`, a refused remote socket is not ended, because the
`emit` of line 53 throws before line 61. -/
theorem remote_refused_unhandled_not_ended :
    Action.remoteEnd ∉
      (step (open_ sampleOpts [] .absent) (.remoteError "ECONNREFUSED")).log ∧
    (step (open_ sampleOpts [] .absent) (.remoteError "ECONNREFUSED")).log =
      [.netConnectRemote (some "relay.example") 4000, .setKeepAlive,
        .emit (.error "connection refused: relay.example:4000 (check your firewall settings)"),
        .throw "connection refused: relay.example:4000 (check your firewall settings)"] := by
  decide

/-! ## The local host -/

theorem localAlias_default (opt : Opts) (h : truthy opt.local_alias = false) :
    localAlias opt = "localhost" := by
  simp [localAlias, jsOr, h, fmt]

theorem localTransport_host (opt : Opts) (fs : FS) (t : Transport)
    (h : (localTransport opt fs).2 = .ok t) : t.host = localAlias opt := by
  unfold localTransport at h
  split at h
  · split at h
    · simp at h; subst h; rfl
    · simp at h
  · simp at h; subst h; rfl

/-! ## Local transport selection (lines 83-99) -/

theorem localAlias_given (opt : Opts) (a : String) (h : opt.local_alias = some a)
    (hne : a ≠ "") : localAlias opt = a := by
  simp [localAlias, jsOr, truthy, h, hne, fmt]

/-- C9, as the code has it: the local connection goes to the host
`opts.local_alias` when that option is truthy and to `"localhost"` otherwise,
and to the port `local_port`.  It is `net.connect` with no file read when
`local_https` is falsy.  Otherwise it is `tls.connect`: with exactly
`rejectUnauthorized: false` and no file read when `allow_invalid_cert` is
truthy, whatever `local_cert`, `local_key` and `local_ca` are; and, when
`allow_invalid_cert` is falsy and the reads succeed, with the contents of the
`local_cert` and `local_key` files and of the `local_ca` file when that option
is truthy (`ca` being absent otherwise).  When `allow_invalid_cert` is falsy
and one of those reads throws (an absent option or an unreadable file), no
transport is chosen: the exception escapes `connLocal` after the remote socket
was paused, and no local socket is created. -/
theorem local_transport_selection (opt : Opts) (fs : FS) :
    ∃ host : String,
      (∀ a, opt.local_alias = some a → a ≠ "" → host = a) ∧
      (truthy opt.local_alias = false → host = "localhost") ∧
      (opt.local_https = false →
        localTransport opt fs = ([], .ok (.net host opt.local_port))) ∧
      (opt.local_https = true → opt.allow_invalid_cert = true →
        localTransport opt fs =
          ([], .ok (.tls host opt.local_port (.rejectUnauthorized false)))) ∧
      (opt.local_https = true → opt.allow_invalid_cert = false →
        ∀ cert key, readFileSync fs opt.local_cert = .ok cert →
          readFileSync fs opt.local_key = .ok key →
          (truthy opt.local_ca = false →
            localTransport opt fs =
              ([.readFile opt.local_cert, .readFile opt.local_key],
                .ok (.tls host opt.local_port (.material cert key none)))) ∧
          (truthy opt.local_ca = true → ∀ ca, readFileSync fs opt.local_ca = .ok ca →
            localTransport opt fs =
              ([.readFile opt.local_cert, .readFile opt.local_key, .readFile opt.local_ca],
                .ok (.tls host opt.local_port (.material cert key (some [ca])))))) ∧
      (opt.local_https = true → opt.allow_invalid_cert = false →
        ((∃ e, readFileSync fs opt.local_cert = .error e) ∨
          (∃ e, readFileSync fs opt.local_key = .error e) ∨
          (truthy opt.local_ca = true ∧ ∃ e, readFileSync fs opt.local_ca = .error e)) →
        ∃ reads e, localTransport opt fs = (reads, .error e)) ∧
      (∀ s : State, s.opts = opt → s.fs = fs → s.destroyed = false →
        (∀ reads t, localTransport opt fs = (reads, .ok t) →
          (connLocal s).log =
            s.log ++ (.remotePause :: (reads ++ [.connectLocal s.locals.length t]))) ∧
        (∀ reads e, localTransport opt fs = (reads, .error e) →
          (connLocal s).log = s.log ++ (.remotePause :: (reads ++ [.throw e])) ∧
          (connLocal s).crashed = true ∧
          (connLocal s).locals.length = s.locals.length)) := by
  refine ⟨localAlias opt, localAlias_given opt, localAlias_default opt, ?_, ?_, ?_, ?_, ?_⟩
  · intro h
    simp [localTransport, h]
  · intro h1 h2
    simp [localTransport, getLocalCertOpts, h1, h2]
  · intro h1 h2 cert key hcert hkey
    constructor
    · intro hca
      simp [localTransport, getLocalCertOpts, h1, h2, hcert, hkey, hca]
    · intro hca ca hr
      simp [localTransport, getLocalCertOpts, h1, h2, hcert, hkey, hca, hr]
  · intro h1 h2 hfail
    unfold localTransport getLocalCertOpts
    simp only [h1, h2, if_true, Bool.false_eq_true, if_false]
    cases hcert : readFileSync fs opt.local_cert with
    | error e => exact ⟨_, _, rfl⟩
    | ok cert =>
      cases hkey : readFileSync fs opt.local_key with
      | error e => exact ⟨_, _, rfl⟩
      | ok key =>
        rcases hfail with ⟨e, he⟩ | ⟨e, he⟩ | ⟨hca, e, he⟩
        · rw [hcert] at he; cases he
        · rw [hkey] at he; cases he
        · simp only [hca, if_true, he]
          exact ⟨_, _, rfl⟩
  · intro s ho hf hd
    subst ho; subst hf
    constructor
    · intro reads t ht
      simp [connLocal, hd, ht]
    · intro reads e ht
      simp [connLocal, hd, ht, uncaught]

/-- C9 at a concrete input: certificate files without a CA under the alias
`127.0.0.1`. -/
theorem local_transport_selection_witness :
    localTransport tlsAliasOpts tlsFiles =
      ([.readFile (some "cert.pem"), .readFile (some "key.pem")],
        .ok (.tls "127.0.0.1" 8080 (.material "CERT" "KEY" none))) := by
  obtain ⟨host, hal, _, _, _, hmat, _⟩ := local_transport_selection tlsAliasOpts tlsFiles
  have hhost : host = "127.0.0.1" := hal "127.0.0.1" rfl (by decide)
  rw [(hmat (by decide) (by decide) "CERT" "KEY" (by rfl) (by rfl)).1 (by decide), hhost]
  rfl

/-- C9 as stated fails: with `local_https` set, `allow_invalid_cert` falsy and
no `local_cert`, the remote `connect` is followed by no TLS connection at all;
`fs.readFileSync(undefined)` throws after the remote socket was paused. -/
theorem tls_without_cert_makes_no_connection :
    (run (open_ tlsBareOpts [] .returns) [.remoteConnect]).log =
      [.netConnectRemote (some "relay.example") 4000, .setKeepAlive, .emit .opened,
        .remotePause, .readFile none, .throw "ERR_INVALID_ARG_TYPE"] ∧
    (run (open_ tlsBareOpts [] .returns) [.remoteConnect]).locals = [] := by
  decide

/-! ## Before the remote socket connects (lines 161-164) -/

theorem preConnect_open (opt : Opts) (fs : FS) (l : ErrorListener) :
    PreConnect (open_ opt fs l) := by
  simp [PreConnect, open_]

theorem preConnect_step (s : State) (e : Event) (h : PreConnect s)
    (he : e ≠ .remoteConnect) : PreConnect (step s e) := by
  by_cases hc : s.crashed = true
  · rw [step_crashed s e hc]; exact h
  have hc : s.crashed = false := by simpa using hc
  obtain ⟨hl, ht, hcl, hlog1, hlog2⟩ := h
  cases e with
  | remoteConnect => exact absurd rfl he
  | remoteError code =>
    rw [step_remoteError s code hc]
    unfold remoteOnError
    split
    · split <;> simp [PreConnect, uncaught, hl, ht, hcl, hlog1, hlog2]
    · simp [PreConnect, hl, ht, hcl, hlog1, hlog2]
  | remoteData chunk =>
    rw [step_remoteData s chunk hc]
    unfold remoteOnData
    split <;> simp [PreConnect, hl, ht, hcl, hlog1, hlog2]
  | remoteDestroyed =>
    rw [step_remoteDestroyed s hc]
    simp [PreConnect, hl, ht, hcl, hlog1, hlog2]
  | remoteClose =>
    rw [step_remoteClose s hc]
    simp [PreConnect, emitClose, hl, ht, hcl, hlog1, hlog2]
  | localError i code =>
    rw [step_localError s i code hc]
    simp [PreConnect, errorArmed, hl, ht, hcl, hlog1, hlog2]
  | localConnect i =>
    rw [step_localConnect s i hc]
    simp [PreConnect, connectArmedAt, hl, ht, hcl, hlog1, hlog2]
  | localClose i hadError =>
    rw [step_localClose]
    simp [PreConnect, hl, ht, hcl, hlog1, hlog2]
  | timer =>
    rw [step_timer s hc]
    simp [PreConnect, hl, ht, hcl, hlog1, hlog2]
  | fsChange fs =>
    rw [step_fsChange s fs hc]
    simp [PreConnect, hl, ht, hcl, hlog1, hlog2]
  | listenError l =>
    rw [step_listenError s l hc]
    simp [PreConnect, hl, ht, hcl, hlog1, hlog2]

theorem preConnect_run (tr : List Event) :
    ∀ s : State, PreConnect s → Event.remoteConnect ∉ tr → PreConnect (run s tr) := by
  induction tr with
  | nil => intro s h _; exact h
  | cons e tr ih =>
    intro s h hn
    rw [run_cons]
    have hne : e ≠ .remoteConnect := fun heq => hn (by simp [heq])
    exact ih (step s e) (preConnect_step s e h hne) (fun hm => hn (List.mem_cons_of_mem _ hm))

/-- C4: along every sequence of events delivered after `open()` in which the
remote socket has not emitted `connect`, whatever else the remote socket does
(errors, data, close), no local connection has been made, no timer has been
scheduled or is pending, and no local socket exists.  Hence every local
connection attempt and every retry comes after the remote `connect` event. -/
theorem local_only_after_remote_connect (opt : Opts) (fs : FS) (l : ErrorListener)
    (tr : List Event) (h : Event.remoteConnect ∉ tr) :
    (∀ i t, Action.connectLocal i t ∉ (run (open_ opt fs l) tr).log) ∧
    (∀ ms, Action.setTimeout ms ∉ (run (open_ opt fs l) tr).log) ∧
    (run (open_ opt fs l) tr).timers = 0 ∧
    (run (open_ opt fs l) tr).locals = [] := by
  obtain ⟨hl, ht, _, hlog1, hlog2⟩ :=
    preConnect_run tr (open_ opt fs l) (preConnect_open opt fs l) h
  exact ⟨hlog1, hlog2, ht, hl⟩

/-- C4 at a concrete input: the remote socket is refused and closes without
ever connecting. -/
theorem local_only_after_remote_connect_witness :
    (run (open_ sampleOpts [] .returns) [.remoteDestroyed, .remoteError "ECONNREFUSED", .remoteClose]).timers
        = 0 ∧
    (run (open_ sampleOpts [] .returns) [.remoteDestroyed, .remoteError "ECONNREFUSED", .remoteClose]).locals
        = [] :=
  (local_only_after_remote_connect sampleOpts [] .returns
    [.remoteDestroyed, .remoteError "ECONNREFUSED", .remoteClose] (by decide)).2.2

/-! ## Pausing the remote socket (lines 77 and 128) -/

theorem connLocal_paused (s : State) (h : s.destroyed = false) :
    (connLocal s).paused = true ∧
    ∃ rest, (connLocal s).log = s.log ++ .remotePause :: rest := by
  unfold connLocal
  rw [if_neg (by simp [h])]
  split
  · exact ⟨rfl, _, by simp [uncaught]; rfl⟩
  · exact ⟨rfl, _, rfl⟩

theorem connLocal_keeps_paused (s : State) (h : s.paused = true) :
    (connLocal s).paused = true := by
  unfold connLocal
  split
  · exact h
  · split <;> rfl

theorem connLocal_length (s : State) (h : (connLocal s).locals.length ≠ s.locals.length) :
    (connLocal s).paused = true := by
  unfold connLocal at h ⊢
  split
  · rename_i hd; rw [if_pos hd] at h; exact absurd rfl h
  · split <;> rfl

theorem disarmError_length (ls : List LocalSock) (i : Nat) :
    (disarmError ls i).length = ls.length := by
  unfold disarmError; split <;> simp

theorem disarmConnect_length (ls : List LocalSock) (i : Nat) :
    (disarmConnect ls i).length = ls.length := by
  unfold disarmConnect; split <;> simp

theorem emitClose_fields (s : State) :
    (emitClose s).paused = s.paused ∧ (emitClose s).locals = s.locals ∧
    (emitClose s).timers = s.timers ∧ (emitClose s).connectArmed = s.connectArmed ∧
    (emitClose s).crashed = s.crashed ∧ (emitClose s).closeListeners = [] ∧
    (emitClose s).destroyed = s.destroyed := by
  unfold emitClose
  have key : ∀ (l : List Nat) (t : State),
      (l.foldl remoteClose t).paused = t.paused ∧ (l.foldl remoteClose t).locals = t.locals ∧
      (l.foldl remoteClose t).timers = t.timers ∧
      (l.foldl remoteClose t).connectArmed = t.connectArmed ∧
      (l.foldl remoteClose t).crashed = t.crashed ∧
      (l.foldl remoteClose t).closeListeners = t.closeListeners ∧
      (l.foldl remoteClose t).destroyed = t.destroyed := by
    intro l
    induction l with
    | nil => intro t; simp
    | cons a l ih => intro t; simpa [remoteClose] using ih (remoteClose t a)
  simpa using key s.closeListeners { s with closeListeners := [] }

theorem step_paused (s : State) (e : Event) (hp : s.paused = true)
    (he : ∀ i, e ≠ .localConnect i) : (step s e).paused = true := by
  by_cases hc : s.crashed = true
  · rw [step_crashed s e hc]; exact hp
  · have hc : s.crashed = false := by simpa using hc
    cases e with
    | remoteConnect =>
      rw [step_remoteConnect s hc]
      split
      · exact connLocal_keeps_paused _ hp
      · exact hp
    | remoteError code =>
      rw [step_remoteError s code hc]
      unfold remoteOnError
      split
      · split <;> exact hp
      · exact hp
    | remoteData chunk =>
      rw [step_remoteData s chunk hc, (remoteOnData_fields s chunk).1]; exact hp
    | remoteDestroyed => rw [step_remoteDestroyed s hc]; exact hp
    | remoteClose =>
      rw [step_remoteClose s hc, (emitClose_fields _).1]; exact hp
    | localError i code =>
      rw [step_localError s i code hc]
      split
      · unfold localOnError; split <;> exact hp
      · exact hp
    | localConnect i => exact absurd rfl (he i)
    | localClose i hadError => rw [step_localClose]; exact hp
    | timer =>
      rw [step_timer s hc]
      split
      · exact hp
      · exact connLocal_keeps_paused _ hp
    | fsChange fs => rw [step_fsChange s fs hc]; exact hp
    | listenError l => rw [step_listenError s l hc]; exact hp

theorem run_paused (tr : List Event) :
    ∀ s : State, s.paused = true → (∀ i, Event.localConnect i ∉ tr) →
      (run s tr).paused = true := by
  induction tr with
  | nil => intro s h _; exact h
  | cons e tr ih =>
    intro s h hn
    rw [run_cons]
    refine ih (step s e) (step_paused s e h ?_) (fun i hm => hn i (List.mem_cons_of_mem _ hm))
    intro i heq
    exact hn i (by simp [heq])

theorem step_length_paused (s : State) (e : Event)
    (h : (step s e).locals.length ≠ s.locals.length) : (step s e).paused = true := by
  by_cases hc : s.crashed = true
  · rw [step_crashed s e hc] at h; exact absurd rfl h
  · have hc : s.crashed = false := by simpa using hc
    cases e with
    | remoteConnect =>
      rw [step_remoteConnect s hc] at h ⊢
      split at h
      · rename_i ha; rw [if_pos ha]; exact connLocal_length _ h
      · exact absurd rfl h
    | remoteError code =>
      rw [step_remoteError s code hc] at h
      unfold remoteOnError at h
      split at h
      · split at h
        · exact absurd rfl h
        · simp [uncaught] at h
      · exact absurd rfl h
    | remoteData chunk =>
      rw [step_remoteData s chunk hc, (remoteOnData_fields s chunk).2.1] at h
      exact absurd rfl h
    | remoteDestroyed => rw [step_remoteDestroyed s hc] at h; exact absurd rfl h
    | remoteClose =>
      rw [step_remoteClose s hc, (emitClose_fields _).2.1] at h; exact absurd rfl h
    | localError i code =>
      rw [step_localError s i code hc] at h
      split at h
      · unfold localOnError at h
        split at h <;> exact absurd (disarmError_length _ _) h
      · exact absurd rfl h
    | localConnect i =>
      rw [step_localConnect s i hc] at h
      split at h
      · unfold localOnConnect at h
        split at h <;> exact absurd (disarmConnect_length _ _) h
      · exact absurd rfl h
    | localClose i hadError => rw [step_localClose] at h; exact absurd rfl h
    | timer =>
      rw [step_timer s hc] at h ⊢
      split at h
      · exact absurd rfl h
      · rename_i ht; rw [if_neg ht]; exact connLocal_length _ h
    | fsChange fs => rw [step_fsChange s fs hc] at h; exact absurd rfl h
    | listenError l => rw [step_listenError s l hc] at h; exact absurd rfl h

/-- C7: `connLocal` on a live remote socket calls `remote.pause()` before
anything else, so before the local socket is created; no event other than a
local `connect` leaves a paused remote socket resumed; and from the event that
creates a local socket, through any events that contain no local `connect`
(local errors, the wait for the retry timer, retries, remote data, errors or
close), the remote socket stays paused. -/
theorem remote_paused_until_local_connect :
    (∀ s : State, s.destroyed = false →
      (connLocal s).paused = true ∧
      ∃ rest, (connLocal s).log = s.log ++ .remotePause :: rest) ∧
    (∀ (s : State) (e : Event), s.paused = true → (step s e).paused = false →
      ∃ i, e = .localConnect i) ∧
    (∀ (s : State) (e : Event) (tr : List Event),
      (step s e).locals.length ≠ s.locals.length →
      (∀ i, Event.localConnect i ∉ tr) →
      (run (step s e) tr).paused = true) := by
  refine ⟨connLocal_paused, ?_, ?_⟩
  · intro s e hp hr
    by_contra hne
    have h := step_paused s e hp (fun i heq => hne ⟨i, heq⟩)
    rw [h] at hr; cases hr
  · intro s e tr hlen hn
    exact run_paused tr (step s e) (step_length_paused s e hlen) hn

/-- C7 at a concrete input: the local connect is refused, the retry timer
fires, and the second attempt is still pending. -/
theorem remote_paused_until_local_connect_witness :
    (run (step (open_ sampleOpts [] .returns) .remoteConnect)
      [.localError 0 "ECONNREFUSED", .remoteData "GET / HTTP/1.1", .timer]).paused = true :=
  remote_paused_until_local_connect.2.2 (open_ sampleOpts [] .returns) .remoteConnect
    [.localError 0 "ECONNREFUSED", .remoteData "GET / HTTP/1.1", .timer]
    (by decide) (by intro i; simp)

/-! ## The remote socket closes (lines 101-107) -/

theorem errorArmed_eq (s : State) (i : Nat) : errorArmed s i = armedAt s.locals i := rfl

theorem armedAt_append (ls : List LocalSock) (c : Bool) (j : Nat) :
    armedAt (ls ++ [{ errorArmed := true, connectArmed := c }]) j =
      (armedAt ls j || j == ls.length) := by
  unfold armedAt
  rcases Nat.lt_trichotomy j ls.length with h | h | h
  · rw [List.getElem?_append_left h]
    have hne : (j == ls.length) = false := by simp; omega
    simp [hne]
  · subst h
    simp
  · have h1 : (ls ++ [{ errorArmed := true, connectArmed := c }])[j]? = none := by
      apply List.getElem?_eq_none; simp; omega
    have h2 : ls[j]? = none := by apply List.getElem?_eq_none; omega
    have hne : (j == ls.length) = false := by simp; omega
    simp [h1, h2, hne]

theorem armedAt_disarmError (ls : List LocalSock) (i j : Nat) :
    armedAt (disarmError ls i) j = (armedAt ls j && j != i) := by
  unfold disarmError
  cases hi : ls[i]? with
  | none =>
    simp only
    by_cases hji : j = i
    · subst hji; simp [armedAt, hi]
    · simp [hji]
  | some l =>
    simp only
    unfold armedAt
    by_cases hji : j = i
    · subst hji
      have hlt : j < ls.length := by
        by_contra hge
        rw [List.getElem?_eq_none (by omega)] at hi; cases hi
      simp [List.getElem?_set, hlt]
    · have hij : i ≠ j := fun h => hji h.symm
      simp [List.getElem?_set, hij, hji]

theorem armedAt_disarmConnect (ls : List LocalSock) (i j : Nat) :
    armedAt (disarmConnect ls i) j = armedAt ls j := by
  unfold disarmConnect
  cases hi : ls[i]? with
  | none => rfl
  | some l =>
    simp only
    unfold armedAt
    by_cases hji : i = j
    · subst hji
      have hlt : i < ls.length := by
        by_contra hge
        rw [List.getElem?_eq_none (by omega)] at hi; cases hi
      simp [List.getElem?_set, hlt, hi]
    · simp [List.getElem?_set, hji]

theorem paired_congr (s t : State) (h : Paired s) (hl : t.locals = s.locals)
    (hcl : t.closeListeners = s.closeListeners) (ht : t.timers = s.timers)
    (hca : t.connectArmed = s.connectArmed) (hc : t.crashed = s.crashed) : Paired t := by
  unfold Paired Idle Busy NoneArmed at *
  simp only [errorArmed_eq] at *
  rw [hl, hcl, ht, hca, hc]
  exact h

theorem paired_open (opt : Opts) (fs : FS) (l : ErrorListener) : Paired (open_ opt fs l) := by
  left
  refine ⟨?_, rfl, by simp [open_], fun _ => rfl⟩
  intro j
  simp [errorArmed, open_]

theorem idle_uncaught (s : State) (m : String) : Idle (uncaught s m) :=
  ⟨errorArmed_uncaught s m, rfl, by simp [uncaught], fun _ => rfl⟩

theorem paired_connLocal (s : State) (hn : NoneArmed s) (hcl : s.closeListeners = [])
    (hca : s.connectArmed = false) (ht : s.timers = 0) (hc : s.crashed = false) :
    Paired (connLocal s) := by
  unfold connLocal
  split
  · left
    exact ⟨hn, hcl, by simp [ht], fun h => by simp [hca] at h⟩
  · split
    · left
      exact idle_uncaught _ _
    · right
      refine ⟨s.locals.length, hc, hca, ht, ?_, by simp [hcl]⟩
      intro j
      have hj := hn j
      rw [errorArmed_eq] at hj
      simp only [errorArmed_eq, armedAt_append, hj]
      simp

theorem paired_step (s : State) (e : Event) (h : Paired s) (he : e ≠ .remoteClose) :
    Paired (step s e) := by
  by_cases hc : s.crashed = true
  · rw [step_crashed s e hc]; exact h
  · have hc : s.crashed = false := by simpa using hc
    cases e with
    | remoteConnect =>
      rw [step_remoteConnect s hc]
      by_cases ha : s.connectArmed = true
      · rw [if_pos ha]
        rcases h with ⟨hn, hcl, _, htz⟩ | ⟨i, _, hca, _⟩
        · exact paired_connLocal _ hn hcl rfl (htz ha) hc
        · rw [hca] at ha; cases ha
      · rw [if_neg ha]; exact h
    | remoteError code =>
      rw [step_remoteError s code hc]
      rcases remoteOnError_cases s code with ⟨as, heq, _⟩ | ⟨m, heq⟩
      · rw [heq]
        exact paired_congr s _ h rfl rfl rfl rfl rfl
      · rw [heq]
        left
        exact idle_uncaught _ _
    | remoteData chunk =>
      rw [step_remoteData s chunk hc]
      have hf := remoteOnData_fields s chunk
      exact paired_congr s _ h hf.2.1 hf.2.2.2.2.2.1 hf.2.2.1 hf.2.2.2.1 hf.2.2.2.2.1
    | remoteDestroyed =>
      rw [step_remoteDestroyed s hc]
      exact paired_congr s _ h rfl rfl rfl rfl rfl
    | remoteClose => exact absurd rfl he
    | localError i code =>
      rw [step_localError s i code hc]
      by_cases ha : errorArmed s i = true
      · rw [if_pos ha]
        rcases h with ⟨hn, _⟩ | ⟨i0, _, hca, ht, hiff, hcl⟩
        · rw [hn i] at ha; cases ha
        · have hi : i = i0 := (hiff i).1 ha
          subst hi
          have hnone : ∀ j, armedAt (disarmError s.locals i) j = false := by
            intro j
            rw [armedAt_disarmError]
            by_cases hji : j = i
            · simp [hji]
            · have : errorArmed s j = false := by
                cases hj : errorArmed s j with
                | false => rfl
                | true => exact absurd ((hiff j).1 hj) hji
              rw [errorArmed_eq] at this
              simp [this]
          left
          unfold localOnError
          split
          · exact ⟨fun j => by rw [errorArmed_eq]; exact hnone j, by simp [hcl],
              by simp [ht], fun _ => ht⟩
          · exact ⟨fun j => by rw [errorArmed_eq]; exact hnone j, by simp [hcl],
              by simp [ht], fun h => by simp [hca] at h⟩
      · rw [if_neg ha]; exact h
    | localConnect i =>
      rw [step_localConnect s i hc]
      split
      · have key : ∀ t : State, t.locals = disarmConnect s.locals i →
            t.closeListeners = s.closeListeners → t.timers = s.timers →
            t.connectArmed = s.connectArmed → t.crashed = s.crashed → Paired t := by
          intro t hl hcl ht hca hcr
          unfold Paired Idle Busy NoneArmed at *
          simp only [errorArmed_eq] at *
          rw [hl, hcl, ht, hca, hcr]
          simpa only [armedAt_disarmConnect] using h
        unfold localOnConnect
        split <;> exact key _ rfl rfl rfl rfl rfl
      · exact h
    | localClose i hadError => rw [step_localClose]; exact h
    | timer =>
      rw [step_timer s hc]
      by_cases ht : s.timers = 0
      · rw [if_pos ht]; exact h
      · rw [if_neg ht]
        rcases h with ⟨hn, hcl, hle, htz⟩ | ⟨i, _, _, ht0, _⟩
        · have hca : s.connectArmed = false := by
            cases hca : s.connectArmed with
            | false => rfl
            | true => exact absurd (htz hca) ht
          refine paired_connLocal _ (fun j => hn j) hcl hca ?_ hc
          show s.timers - 1 = 0
          omega
        · exact absurd ht0 ht
    | fsChange fs =>
      rw [step_fsChange s fs hc]
      exact paired_congr s _ h rfl rfl rfl rfl rfl
    | listenError l =>
      rw [step_listenError s l hc]
      exact paired_congr s _ h rfl rfl rfl rfl rfl

theorem paired_run (tr : List Event) :
    ∀ s : State, Paired s → Event.remoteClose ∉ tr → Paired (run s tr) := by
  induction tr with
  | nil => intro s h _; exact h
  | cons e tr ih =>
    intro s h hn
    rw [run_cons]
    have hne : e ≠ .remoteClose := fun heq => hn (by simp [heq])
    exact ih (step s e) (paired_step s e h hne) (fun hm => hn (List.mem_cons_of_mem _ hm))

/-- C6: in every state reached from `open()` by events among which the
remote socket has not yet closed, if local socket `i` is attached (its `error`
listener is still registered, so it is connecting or piping and has reported
no error), then the remote `close` event emits `dead` exactly once and ends
local socket `i`, and does nothing else. -/
theorem remote_close_emits_dead_once (opt : Opts) (fs : FS) (l : ErrorListener)
    (tr : List Event) (i : Nat)
    (hn : Event.remoteClose ∉ tr)
    (ha : errorArmed (run (open_ opt fs l) tr) i = true) :
    (step (run (open_ opt fs l) tr) .remoteClose).log =
      (run (open_ opt fs l) tr).log ++ [.emit .dead, .localEnd i] := by
  have hp := paired_run tr (open_ opt fs l) (paired_open opt fs l) hn
  rcases hp with ⟨hnone, _⟩ | ⟨i0, hc, _, _, hiff, hcl⟩
  · rw [hnone i] at ha; cases ha
  · have hi : i = i0 := (hiff i).1 ha
    subst hi
    rw [step_remoteClose _ hc]
    simp [emitClose, hcl, remoteClose]

/-- C6 at a concrete input: the second local attempt is piping when the remote
socket closes. -/
theorem remote_close_emits_dead_once_witness :
    (step (run (open_ sampleOpts [] .returns)
        [.remoteConnect, .localError 0 "ECONNREFUSED", .timer, .localConnect 1])
      .remoteClose).log =
    (run (open_ sampleOpts [] .returns)
        [.remoteConnect, .localError 0 "ECONNREFUSED", .timer, .localConnect 1]).log ++
      [.emit .dead, .localEnd 1] :=
  remote_close_emits_dead_once sampleOpts [] .returns
    [.remoteConnect, .localError 0 "ECONNREFUSED", .timer, .localConnect 1] 1
    (by decide) (by decide)

/-! ## Counting `dead` events -/

/-- C5: the remote socket closes while local socket 0 is piping, which emits
`dead`; the local socket then reports `ECONNRESET`, the retry timer fires,
`connLocal` finds the remote socket destroyed and emits `dead` a second
time. -/
theorem dead_emitted_twice :
    deadCount (run (open_ sampleOpts [] .returns)
      [.remoteConnect, .localConnect 0, .remoteClose, .localError 0 "ECONNRESET",
        .timer]).log = 2 := by
  decide

theorem getLocalCertOpts_readFile (opt : Opts) (fs : FS) :
    ∀ b ∈ (getLocalCertOpts opt fs).1, ∃ p, b = .readFile p := by
  unfold getLocalCertOpts
  repeat' split
  all_goals simp

theorem localTransport_readFile (opt : Opts) (fs : FS) :
    ∀ b ∈ (localTransport opt fs).1, ∃ p, b = .readFile p := by
  have h := getLocalCertOpts_readFile opt fs
  unfold localTransport
  split
  · split
    · rename_i heq; rw [heq] at h; exact h
    · rename_i heq; rw [heq] at h; exact h
  · simp

theorem deadCount_append (l₁ l₂ : List Action) :
    deadCount (l₁ ++ l₂) = deadCount l₁ + deadCount l₂ := by
  simp [deadCount, List.count_append]

theorem deadCount_reads (opt : Opts) (fs : FS) :
    deadCount (localTransport opt fs).1 = 0 := by
  unfold deadCount
  rw [List.count_eq_zero]
  intro hmem
  obtain ⟨p, hp⟩ := localTransport_readFile opt fs _ hmem
  cases hp

theorem quiet_step (s : State) (e : Event) (h : Quiet s) :
    Quiet (step s e) ∧ deadCount (step s e).log = deadCount s.log := by
  by_cases hc : s.crashed = true
  · rw [step_crashed s e hc]; exact ⟨h, rfl⟩
  · have hc : s.crashed = false := by simpa using hc
    obtain ⟨hca, ht, hcl, hn⟩ := h
    cases e with
    | remoteConnect =>
      rw [step_remoteConnect s hc]
      simp only [hca]
      exact ⟨⟨hca, ht, hcl, hn⟩, rfl⟩
    | remoteError code =>
      rw [step_remoteError s code hc]
      unfold remoteOnError
      split
      · split
        · exact ⟨⟨hca, ht, hcl, hn⟩, by simp [deadCount]⟩
        · exact ⟨⟨rfl, rfl, rfl, errorArmed_uncaught _ _⟩, by simp [deadCount, uncaught]⟩
      · exact ⟨⟨hca, ht, hcl, hn⟩, by simp [deadCount]⟩
    | remoteData chunk =>
      rw [step_remoteData s chunk hc]
      unfold remoteOnData
      split
      · exact ⟨⟨hca, ht, hcl, hn⟩, by simp [deadCount]⟩
      · exact ⟨⟨hca, ht, hcl, hn⟩, rfl⟩
    | remoteDestroyed =>
      rw [step_remoteDestroyed s hc]
      exact ⟨⟨hca, ht, hcl, hn⟩, rfl⟩
    | remoteClose =>
      rw [step_remoteClose s hc]
      have hcl2 : emitClose { s with destroyed := true } =
          { s with destroyed := true, closeListeners := [] } := by
        simp [emitClose, hcl]
      rw [hcl2]
      exact ⟨⟨hca, ht, rfl, hn⟩, rfl⟩
    | localError i code =>
      rw [step_localError s i code hc]
      simp only [hn i]
      exact ⟨⟨hca, ht, hcl, hn⟩, rfl⟩
    | localConnect i =>
      rw [step_localConnect s i hc]
      have hn2 : ∀ j, armedAt (disarmConnect s.locals i) j = false := by
        intro j
        rw [armedAt_disarmConnect, ← errorArmed_eq]
        exact hn j
      split
      · unfold localOnConnect
        split
        · exact ⟨⟨hca, ht, hcl, fun j => by rw [errorArmed_eq]; exact hn2 j⟩,
            by simp [deadCount]⟩
        · exact ⟨⟨hca, ht, hcl, fun j => by rw [errorArmed_eq]; exact hn2 j⟩,
            by simp [deadCount]⟩
      · exact ⟨⟨hca, ht, hcl, hn⟩, rfl⟩
    | localClose i hadError =>
      rw [step_localClose]
      exact ⟨⟨hca, ht, hcl, hn⟩, rfl⟩
    | timer =>
      rw [step_timer s hc]
      simp only [ht]
      exact ⟨⟨hca, ht, hcl, hn⟩, rfl⟩
    | fsChange fs =>
      rw [step_fsChange s fs hc]
      exact ⟨⟨hca, ht, hcl, hn⟩, rfl⟩
    | listenError l =>
      rw [step_listenError s l hc]
      exact ⟨⟨hca, ht, hcl, hn⟩, rfl⟩

theorem quiet_run (tr : List Event) :
    ∀ s : State, Quiet s → deadCount (run s tr).log = deadCount s.log := by
  induction tr with
  | nil => intro s _; rfl
  | cons e tr ih =>
    intro s h
    rw [run_cons, ih (step s e) (quiet_step s e h).1, (quiet_step s e h).2]

theorem quiet_after_fatal (opt : Opts) (fs : FS) (l : ErrorListener) (code : String)
    (h1 : code ≠ "ECONNREFUSED") (h2 : code ≠ "ECONNRESET") :
    Quiet (run (open_ opt fs l) [.remoteConnect, .localError 0 code]) ∧
    deadCount (run (open_ opt fs l) [.remoteConnect, .localError 0 code]).log = 0 := by
  have hd := deadCount_reads opt fs
  have hs1 : step (open_ opt fs l) .remoteConnect =
      connLocal { open_ opt fs l with connectArmed := false,
                                      log := (open_ opt fs l).log ++ [.emit .opened] } := by
    rw [step_remoteConnect _ rfl]; rfl
  simp only [run, List.foldl_cons, List.foldl_nil]
  rw [hs1]
  unfold connLocal
  rw [if_neg (by simp [open_])]
  have hopts : (open_ opt fs l).opts = opt := rfl
  have hfs : (open_ opt fs l).fs = fs := rfl
  simp only [hopts, hfs]
  rcases hlt : localTransport opt fs with ⟨reads, r⟩
  rw [hlt] at hd
  cases r with
  | error e =>
    simp only
    rw [step_crashed _ _ rfl]
    refine ⟨⟨rfl, rfl, rfl, errorArmed_uncaught _ _⟩, ?_⟩
    simp only [deadCount] at hd
    simp [uncaught, deadCount, open_, List.count_cons, hd]
  | ok t =>
    simp only
    rw [step_localError _ _ _ (by simp [open_])]
    rw [if_pos (by simp [errorArmed, open_])]
    unfold localOnError
    rw [if_pos ⟨h1, h2⟩]
    refine ⟨⟨rfl, rfl, by simp [open_], fun j => ?_⟩, ?_⟩
    · rw [errorArmed_eq]
      simp only [armedAt_disarmError]
      by_cases hj : j = 0
      · simp [hj]
      · have : armedAt ((open_ opt fs l).locals ++
            [{ errorArmed := true, connectArmed := true }]) j = false := by
          rw [armedAt_append]
          simp [open_, armedAt, hj]
        simp [this]
    · simp only [deadCount] at hd
      simp [deadCount, open_, List.count_cons, hd]

/-- C2: once the remote socket has connected and the first local socket has
failed with a code other than `ECONNREFUSED` and `ECONNRESET`, no `dead` event
is emitted, whatever events follow, the close of the remote socket
included. -/
theorem fatal_local_error_never_dead (opt : Opts) (fs : FS) (l : ErrorListener)
    (code : String) (tr : List Event)
    (h1 : code ≠ "ECONNREFUSED") (h2 : code ≠ "ECONNRESET") :
    deadCount (run (open_ opt fs l) (.remoteConnect :: .localError 0 code :: tr)).log = 0 := by
  have h := quiet_after_fatal opt fs l code h1 h2
  have happ : (Event.remoteConnect :: Event.localError 0 code :: tr) =
      [.remoteConnect, .localError 0 code] ++ tr := rfl
  rw [happ, run_append, quiet_run tr _ h.1, h.2]

/-- C2 at a concrete input: the local connect fails with `EACCES`, the remote
socket is ended and then closes, and the log holds no `dead`. -/
theorem fatal_local_error_never_dead_witness :
    deadCount (run (open_ sampleOpts [] .returns)
      [.remoteConnect, .localError 0 "EACCES", .remoteDestroyed, .remoteClose]).log = 0 ∧
    (run (open_ sampleOpts [] .returns)
      [.remoteConnect, .localError 0 "EACCES", .remoteDestroyed, .remoteClose]).log =
      [.netConnectRemote (some "relay.example") 4000, .setKeepAlive, .emit .opened,
        .remotePause, .connectLocal 0 (.net "localhost" 8080), .localEnd 0, .remoteEnd] :=
  ⟨fatal_local_error_never_dead sampleOpts [] .returns "EACCES"
    [.remoteDestroyed, .remoteClose]
    (by decide) (by decide), by decide⟩

/-! ## Piping on local connect (lines 126-141) -/

theorem feed_line (host : List Char) (l : List Char) (hl : '\n' ∉ l) :
    ∀ acc rest, feed host acc (l ++ '\r' :: '\n' :: rest) =
      if acc ++ l = [] then ('\r' :: '\n' :: rest, [], true)
      else
        (rewriteLine host (acc ++ l) ++ '\r' :: '\n' :: (feed host [] rest).1,
          (feed host [] rest).2.1, (feed host [] rest).2.2) := by
  induction l with
  | nil =>
    intro acc rest
    have h1 : ¬ (('\r' : Char) = '\n' ∧ acc.getLast? = some '\r') := by
      intro h; exact absurd h.1 (by decide)
    simp only [List.nil_append, List.append_nil]
    rw [feed, if_neg h1, feed]
    simp
  | cons c l ih =>
    intro acc rest
    have hc : c ≠ '\n' := by
      intro h; exact hl (by simp [h])
    have hl' : '\n' ∉ l := fun h => hl (List.mem_cons_of_mem _ h)
    have h1 : ¬ (c = '\n' ∧ acc.getLast? = some '\r') := fun h => hc h.1
    rw [List.cons_append, feed, if_neg h1, ih hl' (acc ++ [c]) rest]
    simp

theorem feed_append (host : List Char) (a : List Char) :
    ∀ acc b, feed host acc (a ++ b) =
      if (feed host acc a).2.2 then ((feed host acc a).1 ++ b, (feed host acc a).2.1, true)
      else
        ((feed host acc a).1 ++ (feed host (feed host acc a).2.1 b).1,
          (feed host (feed host acc a).2.1 b).2.1,
          (feed host (feed host acc a).2.1 b).2.2) := by
  induction a with
  | nil => intro acc b; simp [feed]
  | cons c cs ih =>
    intro acc b
    rw [List.cons_append, feed, feed]
    by_cases h1 : c = '\n' ∧ acc.getLast? = some '\r'
    · rw [if_pos h1, if_pos h1]
      by_cases h2 : acc.dropLast = []
      · rw [if_pos h2, if_pos h2]; simp
      · rw [if_neg h2, if_neg h2, ih [] b]
        by_cases h3 : (feed host [] cs).2.2 = true
        · simp [h3]
        · simp [h3]
    · rw [if_neg h1, if_neg h1, ih (acc ++ [c]) b]

theorem writeAll_flatten (chunks : List (List Char)) :
    ∀ t : HeaderHostTransformer, t.writeAll chunks = (t.write chunks.flatten).2 := by
  induction chunks with
  | nil =>
    intro t
    simp only [HeaderHostTransformer.writeAll, HeaderHostTransformer.write, List.flatten_nil]
    split <;> simp [feed]
  | cons c cs ih =>
    intro t
    rw [HeaderHostTransformer.writeAll, ih, List.flatten_cons]
    unfold HeaderHostTransformer.write
    by_cases hd : t.done = true
    · simp [hd]
    · simp only [hd, if_false, Bool.false_eq_true]
      rw [feed_append]
      by_cases h3 : (feed t.host t.buffer c).2.2 = true
      · simp [h3]
      · simp [h3]

theorem feed_plain_lines (host : List Char) (pre : List (List Char))
    (hpre : ∀ l ∈ pre, PlainLine l) (rest : List Char) :
    feed host [] (joinLines pre ++ rest) =
      (joinLines pre ++ (feed host [] rest).1, (feed host [] rest).2.1,
        (feed host [] rest).2.2) := by
  induction pre with
  | nil => simp [joinLines]
  | cons l ls ih =>
    obtain ⟨hne, hnl, hh⟩ := hpre l (by simp)
    have hls : ∀ l' ∈ ls, PlainLine l' := fun l' h => hpre l' (List.mem_cons_of_mem _ h)
    have hj : joinLines (l :: ls) ++ rest = l ++ '\r' :: '\n' :: (joinLines ls ++ rest) := by
      simp [joinLines]
    rw [hj, feed_line host l hnl [] _, ih hls]
    simp [hne, rewriteLine, hh, joinLines]

theorem hostName_facts (name : List Char)
    (hname : name.map Char.toLower = ['h', 'o', 's', 't', ':']) :
    name.length = 5 ∧ '\n' ∉ name := by
  have hlen : name.length = 5 := by
    have := congrArg List.length hname
    simpa using this
  refine ⟨hlen, ?_⟩
  intro hmem
  have : Char.toLower '\n' ∈ name.map Char.toLower := List.mem_map_of_mem _ hmem
  rw [hname] at this
  revert this
  decide

theorem rewriteLine_host (host name sp v : List Char)
    (hname : name.map Char.toLower = ['h', 'o', 's', 't', ':'])
    (hsp : ∀ c ∈ sp, c = ' ') (hv : v.head? ≠ some ' ') :
    rewriteLine host (name ++ (sp ++ v)) = name ++ (sp ++ host) := by
  have hlen := (hostName_facts name hname).1
  have htake : (name ++ (sp ++ v)).take 5 = name := by
    rw [← hlen]; simp
  have hdrop : (name ++ (sp ++ v)).drop 5 = sp ++ v := by
    rw [← hlen]; simp
  have hv' : v.takeWhile (fun c => c == ' ') = [] := by
    cases v with
    | nil => rfl
    | cons c t =>
      have : c ≠ ' ' := by
        intro h; exact hv (by simp [h])
      simp [List.takeWhile_cons, this]
  have htw : (sp ++ v).takeWhile (fun c => c == ' ') = sp := by
    rw [List.takeWhile_append_of_pos (by intro c hc; simp [hsp c hc]), hv', List.append_nil]
  unfold rewriteLine isHostHeader
  rw [htake, hdrop, htw, hname]
  simp

theorem hostTransform_message (host : String) (chunks : List String)
    (pre post : List (List Char)) (name sp v body : List Char)
    (hpre : ∀ l ∈ pre, PlainLine l) (hpost : ∀ l ∈ post, PlainLine l)
    (hname : name.map Char.toLower = ['h', 'o', 's', 't', ':'])
    (hsp : ∀ c ∈ sp, c = ' ') (hv : v.head? ≠ some ' ') (hvn : '\n' ∉ v)
    (hchunks : (chunks.map String.toList).flatten = httpMessage pre name sp v post body) :
    hostTransform host chunks = httpMessage pre name sp host.toList post body := by
  have hnm := hostName_facts name hname
  have hline : '\n' ∉ name ++ (sp ++ v) := by
    intro h
    rcases List.mem_append.1 h with h | h
    · exact hnm.2 h
    · rcases List.mem_append.1 h with h | h
      · exact absurd (hsp _ h) (by decide)
      · exact hvn h
  have hne : name ++ (sp ++ v) ≠ [] := by
    intro h
    have := congrArg List.length h
    simp [hnm.1] at this
  have hblank : ∀ body : List Char,
      feed host.toList [] ('\r' :: '\n' :: body) = ('\r' :: '\n' :: body, [], true) := by
    intro body
    have := feed_line host.toList [] (by simp) [] body
    simpa using this
  unfold hostTransform
  rw [writeAll_flatten, hchunks]
  unfold HeaderHostTransformer.write httpMessage
  simp only [Bool.false_eq_true, if_false]
  rw [feed_plain_lines host.toList pre hpre, feed_line host.toList _ hline [] _,
    feed_plain_lines host.toList post hpost, hblank]
  simp only [List.nil_append, hne, if_false]
  rw [rewriteLine_host host.toList name sp v hname hsp hv]

theorem connectArmedAt_lt (s : State) (j : Nat) (h : connectArmedAt s j = true) :
    j < s.locals.length := by
  unfold connectArmedAt at h
  by_contra hge
  rw [List.getElem?_eq_none (by omega)] at h
  cases h

theorem settled_mono (s t : State) (h : PipesSettled s)
    (hlog : ∀ x y, Action.pipe x y ∈ t.log → Action.pipe x y ∈ s.log)
    (hlen : s.locals.length ≤ t.locals.length)
    (harm : ∀ j, j < s.locals.length → connectArmedAt s j = false →
      connectArmedAt t j = false) : PipesSettled t := by
  intro x y hxy j hj
  obtain ⟨h1, h2⟩ := h x y (hlog x y hxy) j hj
  exact ⟨by omega, harm j h1 h2⟩

theorem connectArmedAt_uncaught (s : State) (m : String) (j : Nat) :
    connectArmedAt (uncaught s m) j = false := by
  unfold connectArmedAt uncaught
  simp only [List.getElem?_map]
  cases s.locals[j]? <;> rfl

theorem settled_uncaught (s : State) (m : String) (h : PipesSettled s) :
    PipesSettled (uncaught s m) := by
  refine settled_mono s _ h ?_ (by simp [uncaught]) (fun j _ _ => connectArmedAt_uncaught s m j)
  intro x y hxy
  simpa [uncaught] using hxy

theorem settled_log (s : State) (as : List Action) (h : PipesSettled s)
    (has : ∀ x y, Action.pipe x y ∉ as) : PipesSettled { s with log := s.log ++ as } := by
  refine settled_mono s _ h ?_ (Nat.le_refl _) (fun j _ hj => hj)
  intro x y hxy
  rcases List.mem_append.1 hxy with h1 | h1
  · exact h1
  · exact absurd h1 (has x y)

theorem settled_connLocal (s : State) (h : PipesSettled s) : PipesSettled (connLocal s) := by
  have hreads := localTransport_readFile s.opts s.fs
  unfold connLocal
  split
  · exact settled_log s _ h (by simp)
  · split
    · rename_i reads e heq
      rw [heq] at hreads
      refine settled_uncaught _ _ (settled_mono s _ h ?_ (Nat.le_refl _) (fun j _ hj => hj))
      intro x y hxy
      simp only [List.mem_append, List.mem_cons] at hxy
      rcases hxy with h1 | h1 | h1
      · exact h1
      · cases h1
      · obtain ⟨q, hq⟩ := hreads _ h1; cases hq
    · rename_i reads t heq
      rw [heq] at hreads
      refine settled_mono s _ h ?_ (by simp) ?_
      · intro x y hxy
        simp only [List.mem_append, List.mem_cons, List.mem_singleton] at hxy
        rcases hxy with h1 | h1 | h1 | h1
        · exact h1
        · cases h1
        · obtain ⟨q, hq⟩ := hreads _ h1; cases hq
        · simp at h1
      · intro j hj hf
        unfold connectArmedAt at hf ⊢
        simp only [List.getElem?_append_left hj]
        exact hf

theorem connectArmedAt_disarmConnect (ls : List LocalSock) (i j : Nat) :
    (match (disarmConnect ls i)[j]? with
      | some l => l.connectArmed
      | none => false) =
    ((match ls[j]? with
      | some l => l.connectArmed
      | none => false) && j != i) := by
  unfold disarmConnect
  cases hi : ls[i]? with
  | none =>
    simp only
    by_cases hji : j = i
    · subst hji; simp [hi]
    · simp [hji]
  | some l =>
    simp only
    by_cases hji : j = i
    · subst hji
      have hlt : j < ls.length := by
        by_contra hge
        rw [List.getElem?_eq_none (by omega)] at hi; cases hi
      simp [List.getElem?_set, hlt]
    · have hij : i ≠ j := fun h => hji h.symm
      simp [List.getElem?_set, hij, hji]

theorem connectArmedAt_disarmError (ls : List LocalSock) (i j : Nat) :
    (match (disarmError ls i)[j]? with
      | some l => l.connectArmed
      | none => false) =
    (match ls[j]? with
      | some l => l.connectArmed
      | none => false) := by
  unfold disarmError
  cases hi : ls[i]? with
  | none => rfl
  | some l =>
    simp only
    by_cases hji : i = j
    · subst hji
      have hlt : i < ls.length := by
        by_contra hge
        rw [List.getElem?_eq_none (by omega)] at hi; cases hi
      simp [List.getElem?_set, hlt, hi]
    · simp [List.getElem?_set, hji]

theorem settled_localOnConnect (s : State) (i : Nat) (h : PipesSettled s)
    (ha : connectArmedAt s i = true) : PipesSettled (localOnConnect s i) := by
  have hi := connectArmedAt_lt s i ha
  have key : ∀ t : State, t.locals = disarmConnect s.locals i →
      (∀ x y, Action.pipe x y ∈ t.log → Action.pipe x y ∈ s.log ∨
        ∀ j, (x = .loc j ∨ y = .loc j) → j = i) → PipesSettled t := by
    intro t hl hlog x y hxy j hj
    have harm : ∀ k, connectArmedAt t k = (connectArmedAt s k && k != i) := by
      intro k
      unfold connectArmedAt
      rw [hl]
      exact connectArmedAt_disarmConnect s.locals i k
    have hlen : t.locals.length = s.locals.length := by
      rw [hl]; exact disarmConnect_length _ _
    rcases hlog x y hxy with h1 | h1
    · obtain ⟨h2, h3⟩ := h x y h1 j hj
      exact ⟨by omega, by rw [harm, h3]; rfl⟩
    · have hji := h1 j hj
      subst hji
      exact ⟨by omega, by rw [harm]; simp⟩
  unfold localOnConnect
  split
  · refine key _ rfl ?_
    intro x y hxy
    simp only [List.mem_append, List.mem_cons, List.mem_singleton] at hxy
    rcases hxy with h1 | h1 | h1 | h1 | h1
    · exact Or.inl h1
    · cases h1
    · right
      simp only [Action.pipe.injEq] at h1
      obtain ⟨hx, hy⟩ := h1
      subst hx; subst hy
      intro j hj
      rcases hj with hj | hj <;> cases hj
    · right
      simp only [Action.pipe.injEq] at h1
      obtain ⟨hx, hy⟩ := h1
      subst hx; subst hy
      intro j hj
      rcases hj with hj | hj
      · cases hj
      · cases hj; rfl
    · simp only [List.mem_nil_iff, or_false] at h1
      right
      simp only [Action.pipe.injEq] at h1
      obtain ⟨hx, hy⟩ := h1
      subst hx; subst hy
      intro j hj
      rcases hj with hj | hj
      · cases hj; rfl
      · cases hj
  · refine key _ rfl ?_
    intro x y hxy
    simp only [List.mem_append, List.mem_cons, List.mem_singleton] at hxy
    rcases hxy with h1 | h1 | h1 | h1
    · exact Or.inl h1
    · cases h1
    · right
      simp only [Action.pipe.injEq] at h1
      obtain ⟨hx, hy⟩ := h1
      subst hx; subst hy
      intro j hj
      rcases hj with hj | hj
      · cases hj
      · cases hj; rfl
    · simp only [List.mem_nil_iff, or_false] at h1
      right
      simp only [Action.pipe.injEq] at h1
      obtain ⟨hx, hy⟩ := h1
      subst hx; subst hy
      intro j hj
      rcases hj with hj | hj
      · cases hj; rfl
      · cases hj

theorem settled_step (s : State) (e : Event) (h : PipesSettled s) :
    PipesSettled (step s e) := by
  by_cases hc : s.crashed = true
  · rw [step_crashed s e hc]; exact h
  have hc : s.crashed = false := by simpa using hc
  cases e with
  | remoteConnect =>
    rw [step_remoteConnect s hc]
    split
    · refine settled_connLocal _ (settled_mono s _ h ?_ (Nat.le_refl _) (fun j _ hj => hj))
      intro x y hxy
      simpa using hxy
    · exact h
  | remoteError code =>
    rw [step_remoteError s code hc]
    rcases remoteOnError_cases s code with ⟨as, heq, has⟩ | ⟨m, heq⟩
    · rw [heq]
      refine settled_log s as h ?_
      intro x y hxy
      rcases has _ hxy with h1 | ⟨m, h1⟩ <;> cases h1
    · rw [heq]
      exact settled_uncaught _ _ (settled_log s _ h (by simp))
  | remoteData chunk =>
    rw [step_remoteData s chunk hc]
    unfold remoteOnData
    split
    · exact settled_log s _ h (by simp)
    · exact h
  | remoteDestroyed =>
    rw [step_remoteDestroyed s hc]
    exact settled_mono s _ h (fun x y hxy => hxy) (Nat.le_refl _) (fun j _ hj => hj)
  | remoteClose =>
    rw [step_remoteClose s hc]
    have key : ∀ (l : List Nat) (t : State), PipesSettled t →
        PipesSettled (l.foldl remoteClose t) := by
      intro l
      induction l with
      | nil => intro t ht; exact ht
      | cons a l ih =>
        intro t ht
        exact ih (remoteClose t a) (settled_log t _ ht (by simp))
    exact key _ _ (settled_mono s _ h (fun x y hxy => hxy) (Nat.le_refl _) (fun j _ hj => hj))
  | localError i code =>
    rw [step_localError s i code hc]
    split
    · have key : ∀ t : State, t.locals = disarmError s.locals i →
          (∀ x y, Action.pipe x y ∈ t.log → Action.pipe x y ∈ s.log) → PipesSettled t := by
        intro t hl hlog
        refine settled_mono s t h hlog (by rw [hl, disarmError_length]) ?_
        intro j _ hj
        unfold connectArmedAt at hj ⊢
        rw [hl, connectArmedAt_disarmError]
        exact hj
      unfold localOnError
      split
      · refine key _ rfl ?_
        intro x y hxy
        simp only [List.mem_append, List.mem_cons, List.mem_singleton] at hxy
        rcases hxy with h1 | h1 | h1
        · exact h1
        · cases h1
        · simp at h1
      · refine key _ rfl ?_
        intro x y hxy
        simp only [List.mem_append, List.mem_cons, List.mem_singleton] at hxy
        rcases hxy with h1 | h1 | h1
        · exact h1
        · cases h1
        · simp at h1
    · exact h
  | localConnect i =>
    rw [step_localConnect s i hc]
    split
    · rename_i ha
      exact settled_localOnConnect s i h ha
    · exact h
  | localClose i hadError => rw [step_localClose]; exact h
  | timer =>
    rw [step_timer s hc]
    split
    · exact h
    · exact settled_connLocal _
        (settled_mono s _ h (fun x y hxy => hxy) (Nat.le_refl _) (fun j _ hj => hj))
  | fsChange fs =>
    rw [step_fsChange s fs hc]
    exact settled_mono s _ h (fun x y hxy => hxy) (Nat.le_refl _) (fun j _ hj => hj)
  | listenError l =>
    rw [step_listenError s l hc]
    exact settled_mono s _ h (fun x y hxy => hxy) (Nat.le_refl _) (fun j _ hj => hj)

theorem settled_run (tr : List Event) :
    ∀ s : State, PipesSettled s → PipesSettled (run s tr) := by
  induction tr with
  | nil => intro s h; exact h
  | cons e tr ih => intro s h; rw [run_cons]; exact ih _ (settled_step s e h)

theorem settled_open (opt : Opts) (fs : FS) (l : ErrorListener) :
    PipesSettled (open_ opt fs l) := by
  intro x y hxy
  simp [open_] at hxy

theorem filterMap_none {α β : Type} (f : α → Option β) (l : List α)
    (h : ∀ a ∈ l, f a = none) : l.filterMap f = [] := by
  induction l with
  | nil => rfl
  | cons a l ih =>
    rw [List.filterMap_cons, h a (by simp)]
    exact ih (fun b hb => h b (List.mem_cons_of_mem _ hb))

theorem legToLocal_none (whole : List Action) (i : Nat) (act : Action)
    (h : ∀ x, act ≠ .pipe x (.loc i)) : legToLocal whole i act = none := by
  unfold legToLocal
  split
  · rename_i j
    by_cases hj : j = i
    · subst hj; exact absurd rfl (h _)
    · simp [hj]
  · rename_i k a j
    by_cases hj : j = i
    · subst hj; exact absurd rfl (h _)
    · simp [hj]
  · rfl

theorem legToRemote_none (whole : List Action) (i : Nat) (act : Action)
    (h : ∀ y, act ≠ .pipe (.loc i) y) : legToRemote whole i act = none := by
  unfold legToRemote
  split
  · rename_i j
    by_cases hj : j = i
    · subst hj; exact absurd rfl (h _)
    · simp [hj]
  · rename_i j k a
    by_cases hj : j = i
    · subst hj; exact absurd rfl (h _)
    · simp [hj]
  · rfl

theorem settled_fresh (s : State) (i : Nat) (h : PipesSettled s)
    (ha : connectArmedAt s i = true) :
    ∀ act ∈ s.log, (∀ x, act ≠ .pipe x (.loc i)) ∧ (∀ y, act ≠ .pipe (.loc i) y) := by
  intro act hact
  constructor
  · intro x hx
    subst hx
    have := (h x (.loc i) hact i (Or.inr rfl)).2
    rw [ha] at this; cases this
  · intro y hy
    subst hy
    have := (h (.loc i) y hact i (Or.inl rfl)).2
    rw [ha] at this; cases this

/-- C8: when the `connect` listener of local socket `i` runs, the remote socket
is piped into a `HeaderHostTransformer` constructed with `opts.local_alias`,
and that transformer into the local socket, exactly when `opts.local_alias` is
truthy; otherwise the remote socket is piped into the local socket directly,
and the host the local connection targets is `"localhost"`.  In both cases the
local socket is piped directly into the remote socket, and these are the only
pipes made.  In every state reached from `open()`, the bytes local socket `i`
then receives are those of the remote chunks passed through the transformer
when the alias is truthy and the chunks themselves otherwise, and the remote
socket receives the chunks of the local socket unchanged.  For a message whose
header block has a `Host` line, however it is cut into chunks, the transformer
outputs the same bytes with the value of that line replaced by the alias. -/
theorem local_connect_piping (s : State) (i : Nat)
    (hc : s.crashed = false) (ha : connectArmedAt s i = true) :
    (truthy s.opts.local_alias = true →
      ∃ a, s.opts.local_alias = some a ∧
        (step s (.localConnect i)).log = s.log ++
          [.remoteResume, .pipe .remote (.transformer i a),
            .pipe (.transformer i a) (.loc i), .pipe (.loc i) .remote]) ∧
    (truthy s.opts.local_alias = false →
      (step s (.localConnect i)).log = s.log ++
          [.remoteResume, .pipe .remote (.loc i), .pipe (.loc i) .remote] ∧
      ∀ fs t, (localTransport s.opts fs).2 = .ok t → t.host = "localhost") ∧
    (∀ opt fs l tr, s = run (open_ opt fs l) tr →
      (∀ a, s.opts.local_alias = some a → a ≠ "" → ∀ chunks,
        receivedByLocal (step s (.localConnect i)).log i chunks =
          [hostTransform a chunks]) ∧
      (truthy s.opts.local_alias = false → ∀ chunks,
        receivedByLocal (step s (.localConnect i)).log i chunks =
          [(chunks.map String.toList).flatten]) ∧
      (∀ chunks, receivedByRemote (step s (.localConnect i)).log i chunks =
          [(chunks.map String.toList).flatten])) ∧
    (∀ (a : String) (chunks : List String) (pre post : List (List Char))
      (name sp v body : List Char),
      (∀ l ∈ pre, PlainLine l) → (∀ l ∈ post, PlainLine l) →
      name.map Char.toLower = ['h', 'o', 's', 't', ':'] →
      (∀ c ∈ sp, c = ' ') → v.head? ≠ some ' ' → '\n' ∉ v →
      (chunks.map String.toList).flatten = httpMessage pre name sp v post body →
      hostTransform a chunks = httpMessage pre name sp a.toList post body) := by
  have hstep : step s (.localConnect i) = localOnConnect s i := by
    simp [step, hc, ha]
  rw [hstep]
  refine ⟨?_, ?_, ?_, ?_⟩
  · intro h
    cases hal : s.opts.local_alias with
    | none => rw [hal] at h; simp [truthy] at h
    | some a =>
      refine ⟨a, rfl, ?_⟩
      have h2 : truthy (some a) = true := by rw [← hal]; exact h
      simp [localOnConnect, h2, hal, fmt]
  · intro h
    refine ⟨by simp [localOnConnect, h], ?_⟩
    intro fs t ht
    rw [localTransport_host s.opts fs t ht, localAlias_default s.opts h]
  · intro opt fs l tr hs
    have hset : PipesSettled s := by
      rw [hs]; exact settled_run tr _ (settled_open opt fs l)
    have hfresh := settled_fresh s i hset ha
    have hL : ∀ whole, s.log.filterMap (legToLocal whole i) = [] := fun whole =>
      filterMap_none _ _ (fun act hact => legToLocal_none whole i act (hfresh act hact).1)
    have hR : ∀ whole, s.log.filterMap (legToRemote whole i) = [] := fun whole =>
      filterMap_none _ _ (fun act hact => legToRemote_none whole i act (hfresh act hact).2)
    refine ⟨?_, ?_, ?_⟩
    · intro a hal hne chunks
      have h2 : truthy (some a) = true := by simp [truthy, hne]
      have hlog : (localOnConnect s i).log = s.log ++
          [.remoteResume, .pipe .remote (.transformer i a),
            .pipe (.transformer i a) (.loc i), .pipe (.loc i) .remote] := by
        simp [localOnConnect, h2, hal, fmt]
      unfold receivedByLocal
      rw [hlog, List.filterMap_append, hL]
      simp [legToLocal, Leg.carry]
    · intro h chunks
      have hlog : (localOnConnect s i).log = s.log ++
          [.remoteResume, .pipe .remote (.loc i), .pipe (.loc i) .remote] := by
        simp [localOnConnect, h]
      unfold receivedByLocal
      rw [hlog, List.filterMap_append, hL]
      simp [legToLocal, Leg.carry]
    · intro chunks
      unfold receivedByRemote
      by_cases h : truthy s.opts.local_alias = true
      · have hlog : (localOnConnect s i).log = s.log ++
            [.remoteResume, .pipe .remote (.transformer i (fmt s.opts.local_alias)),
              .pipe (.transformer i (fmt s.opts.local_alias)) (.loc i),
              .pipe (.loc i) .remote] := by
          simp [localOnConnect, h]
        rw [hlog, List.filterMap_append, hR]
        simp [legToRemote, Leg.carry]
      · have hlog : (localOnConnect s i).log = s.log ++
            [.remoteResume, .pipe .remote (.loc i), .pipe (.loc i) .remote] := by
          simp [localOnConnect, h]
        rw [hlog, List.filterMap_append, hR]
        simp [legToRemote, Leg.carry]
  · intro a chunks pre post name sp v body hpre hpost hname hsp hv hvn hchunks
    exact hostTransform_message a chunks pre post name sp v body hpre hpost hname hsp hv hvn
      hchunks

/-- C8 at a concrete input, the alias `127.0.0.1` of the test suite: the
request reaches the local socket with `127.0.0.1` as its `Host`, also when the
header line arrives cut in two chunks. -/
theorem local_connect_piping_witness :
    receivedByLocal
      (step (run (open_ aliasOpts [] .returns) [.remoteConnect]) (.localConnect 0)).log 0
      ["GET / HTTP/1.1\r\nho", "st: tunnel.example\r\nConnection: close\r\n\r\n"] =
    ["GET / HTTP/1.1\r\nhost: 127.0.0.1\r\nConnection: close\r\n\r\n".toList] := by
  have h := ((local_connect_piping (run (open_ aliasOpts [] .returns) [.remoteConnect]) 0
    (by decide) (by decide)).2.2.1 aliasOpts [] .returns [.remoteConnect] rfl).1
    "127.0.0.1" rfl (by decide)
    ["GET / HTTP/1.1\r\nho", "st: tunnel.example\r\nConnection: close\r\n\r\n"]
  rw [h]
  decide

/-! ## The request line (lines 150-158) -/

theorem take_length_takeWhile (p : Char → Bool) (l : List Char) :
    l.take (l.takeWhile p).length = l.takeWhile p := by
  induction l with
  | nil => rfl
  | cons x xs ih =>
    by_cases hx : p x = true
    · simp [List.takeWhile_cons, hx, ih]
    · simp [List.takeWhile_cons, hx]

theorem drop_length_takeWhile (p : Char → Bool) (l : List Char) :
    l.drop (l.takeWhile p).length = l.dropWhile p := by
  induction l with
  | nil => rfl
  | cons x xs ih =>
    by_cases hx : p x = true
    · simp [List.takeWhile_cons, List.dropWhile_cons, hx, ih]
    · simp [List.takeWhile_cons, List.dropWhile_cons, hx]

theorem drop_lt_takeWhile (p : Char → Bool) (l : List Char) :
    ∀ j, j < (l.takeWhile p).length → ∃ c t, l.drop j = c :: t ∧ p c = true := by
  induction l with
  | nil => intro j h; simp at h
  | cons x xs ih =>
    intro j h
    by_cases hx : p x = true
    · cases j with
      | zero => exact ⟨x, xs, rfl, hx⟩
      | succ j =>
        simp [List.takeWhile_cons, hx] at h
        simpa using ih j h
    · simp [List.takeWhile_cons, hx] at h

theorem tryLengths_none {α : Type} (k : Nat → Option α) :
    ∀ n, (∀ j, 0 < j → j ≤ n → k j = none) → tryLengths k n = none := by
  intro n
  induction n with
  | zero => intro _; rfl
  | succ n ih =>
    intro h
    simp only [tryLengths, h (n + 1) (by omega) (by omega)]
    exact ih (fun j h0 hj => h j h0 (by omega))

theorem tryLengths_top {α : Type} (k : Nat → Option α) (n : Nat)
    (h : ∀ j, 0 < j → j < n → k j = none) : tryLengths k n = if n = 0 then none else k n := by
  cases n with
  | zero => rfl
  | succ n =>
    simp only [tryLengths]
    cases hk : k (n + 1) with
    | some r => simp
    | none =>
      simp only
      rw [tryLengths_none k n (fun j h0 hj => h j h0 (by omega))]
      simp

theorem matchItems_path (xs : List Char) :
    matchItems [.plus isNonSpace] xs =
      if xs.takeWhile isNonSpace = [] then none else some [xs.takeWhile isNonSpace] := by
  simp only [matchItems]
  cases hn : (xs.takeWhile isNonSpace).length with
  | zero =>
    have : xs.takeWhile isNonSpace = [] := List.length_eq_zero.mp hn
    simp [this, tryLengths]
  | succ n =>
    have hne : xs.takeWhile isNonSpace ≠ [] := by
      intro h; rw [h] at hn; cases hn
    have ht := take_length_takeWhile isNonSpace xs
    rw [hn] at ht
    simp [tryLengths, hne, ht]

theorem matchItems_requestLine (l : List Char) :
    matchItems [.plus isWordChar, .lit ' ', .plus isNonSpace] l =
      (leadingRequestLine l).map (fun mp => [mp.1, mp.2]) := by
  have hsmall : ∀ j, 0 < j → j < (l.takeWhile isWordChar).length →
      (matchItems [.lit ' ', .plus isNonSpace] (l.drop j)).map
        (fun caps => l.take j :: caps) = none := by
    intro j _ hj
    obtain ⟨c, t, hd, hc⟩ := drop_lt_takeWhile isWordChar l j hj
    have hne : c ≠ ' ' := by
      intro h; rw [h] at hc; exact absurd hc (by decide)
    rw [hd]
    simp [matchItems, hne]
  have hmain : matchItems [.plus isWordChar, .lit ' ', .plus isNonSpace] l =
      tryLengths (fun n => (matchItems [.lit ' ', .plus isNonSpace] (l.drop n)).map
        (fun caps => l.take n :: caps)) (l.takeWhile isWordChar).length := by
    rw [matchItems]
  rw [hmain, tryLengths_top _ _ hsmall]
  rw [take_length_takeWhile, drop_length_takeWhile]
  unfold leadingRequestLine
  cases hdw : l.dropWhile isWordChar with
  | nil =>
    simp [matchItems]
  | cons x rest =>
    by_cases hx : x = ' '
    · subst hx
      by_cases hm : l.takeWhile isWordChar = []
      · simp [hm]
      · by_cases hp : rest.takeWhile isNonSpace = []
        · have h0 : (l.takeWhile isWordChar).length ≠ 0 := by
            intro h; exact hm (List.length_eq_zero.mp h)
          have hmi : matchItems [.lit ' ', .plus isNonSpace] (' ' :: rest) =
              matchItems [.plus isNonSpace] rest := by
            rw [matchItems]; simp
          simp [h0, hmi, matchItems_path, hp]
        · have h0 : (l.takeWhile isWordChar).length ≠ 0 := by
            intro h; exact hm (List.length_eq_zero.mp h)
          have hmi : matchItems [.lit ' ', .plus isNonSpace] (' ' :: rest) =
              matchItems [.plus isNonSpace] rest := by
            rw [matchItems]; simp
          simp [h0, hmi, matchItems_path, hp, hm]
    · have hmi : matchItems [.lit ' ', .plus isNonSpace] (x :: rest) = none := by
        rw [matchItems]; simp [hx]
      simp [hmi, hx]

theorem requestLine_eq (chunk : String) :
    requestLine chunk =
      (leadingRequestLine chunk.toList).map (fun mp => (String.mk mp.1, String.mk mp.2)) := by
  unfold requestLine
  rw [matchItems_requestLine]
  cases leadingRequestLine chunk.toList with
  | none => rfl
  | some mp => rfl

theorem leadingRequestLine_iff (l m p : List Char) :
    leadingRequestLine l = some (m, p) ↔
      m ≠ [] ∧ p ≠ [] ∧ (∀ x ∈ m, isWordChar x = true) ∧ (∀ x ∈ p, isNonSpace x = true) ∧
      ∃ rest, l = m ++ ' ' :: (p ++ rest) ∧ ∀ c ∈ rest.head?, isNonSpace c = false := by
  constructor
  · intro h
    unfold leadingRequestLine at h
    split at h
    · cases h
    · rename_i x rest0 hdw
      split at h
      · rename_i hcond
        obtain ⟨hx, hm, hp⟩ := hcond
        simp only [Option.some.injEq, Prod.mk.injEq] at h
        obtain ⟨h1, h2⟩ := h
        subst hx
        refine ⟨h1 ▸ hm, h2 ▸ hp, ?_, ?_, rest0.dropWhile isNonSpace, ?_, ?_⟩
        · intro c hc; rw [← h1] at hc; exact List.mem_takeWhile_imp hc
        · intro c hc; rw [← h2] at hc; exact List.mem_takeWhile_imp hc
        · rw [← h1, ← h2, List.takeWhile_append_dropWhile, ← hdw,
            List.takeWhile_append_dropWhile]
        · intro c hc
          have := List.head?_dropWhile_not isNonSpace rest0
          rw [Option.mem_def] at hc
          rw [hc] at this
          simpa using this
      · cases h
  · rintro ⟨hm, hp, hmw, hpn, rest, hl, hrest⟩
    have hsp : isWordChar ' ' = false := by decide
    have htw : l.takeWhile isWordChar = m := by
      rw [hl, List.takeWhile_append_of_pos hmw]
      simp [List.takeWhile_cons, hsp]
    have hdw : l.dropWhile isWordChar = ' ' :: (p ++ rest) := by
      rw [hl, List.dropWhile_append_of_pos hmw]
      simp [List.dropWhile_cons, hsp]
    have hrt : rest.takeWhile isNonSpace = [] := by
      cases rest with
      | nil => rfl
      | cons c t =>
        have := hrest c (by simp)
        simp [List.takeWhile_cons, this]
    have hpt : (p ++ rest).takeWhile isNonSpace = p := by
      rw [List.takeWhile_append_of_pos hpn, hrt, List.append_nil]
    unfold leadingRequestLine
    rw [hdw]
    simp [htw, hpt, hm, hp]

/-- C10: a data chunk on the remote socket emits `request` exactly when its
text begins with a non-empty run of word characters, then one space, then a
non-empty run of non-whitespace characters; the payload is the maximal leading
run of word characters and the maximal run of non-whitespace characters after
the space; any other chunk emits nothing and changes nothing.  The chunk
`GET / HTTP/1.1\r\nHost: example.com\r\n` gives method `GET` and path `/`. -/
theorem request_event_parsing (s : State) (chunk : String) (hc : s.crashed = false) :
    (∀ m p : List Char,
      (m ≠ [] ∧ p ≠ [] ∧ (∀ x ∈ m, isWordChar x = true) ∧ (∀ x ∈ p, isNonSpace x = true) ∧
        ∃ rest, chunk.toList = m ++ ' ' :: (p ++ rest) ∧
          ∀ c ∈ rest.head?, isNonSpace c = false) →
      (step s (.remoteData chunk)).log =
        s.log ++ [.emit (.request (String.mk m) (String.mk p))]) ∧
    ((¬ ∃ m p : List Char,
      m ≠ [] ∧ p ≠ [] ∧ (∀ x ∈ m, isWordChar x = true) ∧ (∀ x ∈ p, isNonSpace x = true) ∧
        ∃ rest, chunk.toList = m ++ ' ' :: (p ++ rest) ∧
          ∀ c ∈ rest.head?, isNonSpace c = false) →
      step s (.remoteData chunk) = s) ∧
    (step s (.remoteData chunk)).log = s.log ++
      (match leadingRequestLine chunk.toList with
        | some (m, p) => [.emit (.request (String.mk m) (String.mk p))]
        | none => []) ∧
    requestLine "GET / HTTP/1.1\r\nHost: example.com\r\n" = some ("GET", "/") := by
  rw [step_remoteData s chunk hc]
  unfold remoteOnData
  rw [requestLine_eq]
  refine ⟨?_, ?_, ?_, by decide⟩
  · intro m p h
    rw [(leadingRequestLine_iff chunk.toList m p).2 h]
    rfl
  · intro h
    cases hl : leadingRequestLine chunk.toList with
    | none => rfl
    | some mp =>
      exact absurd ⟨mp.1, mp.2, (leadingRequestLine_iff chunk.toList mp.1 mp.2).1 hl⟩ h
  · cases hl : leadingRequestLine chunk.toList with
    | none => simp
    | some mp => rfl

/-- C10 at concrete inputs: a request line, and a chunk with two spaces after
the method, which emits nothing. -/
theorem request_event_parsing_witness :
    (step (open_ sampleOpts [] .returns) (.remoteData "GET / HTTP/1.1\r\nHost: example.com\r\n")).log =
      (open_ sampleOpts [] .returns).log ++ [.emit (.request "GET" "/")] ∧
    (step (open_ sampleOpts [] .returns) (.remoteData "GET  / HTTP/1.1")).log =
      (open_ sampleOpts [] .returns).log :=
  ⟨by
    have h := (request_event_parsing (open_ sampleOpts [] .returns)
      "GET / HTTP/1.1\r\nHost: example.com\r\n" (by decide)).2.2.1
    rw [h]; decide,
   by
    have h := (request_event_parsing (open_ sampleOpts [] .returns) "GET  / HTTP/1.1" (by decide)).2.2.1
    rw [h]; decide⟩

end TunnelCluster

